import Mathlib

/-!
Verification development for the paged key/value cache subsystem of the
levanter inference runtime.

The definitions below are a shallow embedding of the canonical single-owner
page table and the reference ragged paged attention kernel found in
src/levanter/layers/attention.py.  Arrays (jax/haliax NamedArrays) are
modelled as total functions from natural-number indices, together with
explicit size parameters; int32 entries become Int (the INVALID sentinel is
-1).  The jax primitives used by the source are modelled as follows:

* jax.lax.fori_loop (a, b, body, init) is a sequential fold over the
  integers a, a+1, ..., b-1 (empty when b <= a);
* jnp.argmin returns the first index attaining the minimum;
* gather with a traced index uses clip semantics (out-of-range indices,
  including negative ones, are clamped into range);
* scatter (x.at[i].set / .add with traced indices, and mode="drop") drops
  out-of-range updates, including negative indices;
* indexing with a static (Python int) index follows numpy: negative indices
  wrap around, and out-of-range static indices raise IndexError (modelled
  with Option, none = raise);
* integer division and remainder follow numpy floor semantics; all divisors
  in this code are positive, so Lean's Int `/` and `%` coincide with them.
-/

namespace Levanter

/-- Sequential model of jax.lax.fori_loop: folds body over a, a+1, ..., b-1. -/
def foriLoop {σ : Type _} (a b : Int) (body : Int → σ → σ) (s : σ) : σ :=
  (List.range (b - a).toNat).foldl (fun t (k : ℕ) => body (a + (k : Int)) t) s

/-- Pointwise update of a one-dimensional array modelled as a function. -/
def updAt {α : Type _} (f : ℕ → α) (i : ℕ) (v : α) : ℕ → α :=
  fun j => if j = i then v else f j

/-- Pointwise update of a two-dimensional array modelled as a function. -/
def updAt2 {α : Type _} (f : ℕ → ℕ → α) (a b : ℕ) (v : α) : ℕ → ℕ → α :=
  fun s j => if s = a ∧ j = b then v else f s j

/-- Gather with jax clip semantics: a traced index is clamped into [0, n). -/
def clampIdx (n : ℕ) (i : Int) : ℕ :=
  (min (max i 0) ((n : Int) - 1)).toNat

/-- Scatter-set with jax drop semantics: out-of-range updates are ignored. -/
def setDrop {α : Type _} (f : ℕ → α) (n : ℕ) (i : Int) (v : α) : ℕ → α :=
  if 0 ≤ i ∧ i < (n : Int) then updAt f i.toNat v else f

/-- Scatter-add with jax drop semantics (mode="drop"). -/
def addDrop (f : ℕ → Int) (n : ℕ) (i : Int) (v : Int) : ℕ → Int :=
  if 0 ≤ i ∧ i < (n : Int) then updAt f i.toNat (f i.toNat + v) else f

/-- First index in [0, n) attaining the minimum of f (jnp.argmin). -/
def argminIdx (f : ℕ → Int) (n : ℕ) : ℕ :=
  (List.range n).foldl (fun best j => if f j < f best then j else best) 0

/-- Entry j of concatenate([0], cumsum f): the sum of f over [0, j). -/
def cumsumAt (f : ℕ → Int) : ℕ → Int
  | 0 => 0
  | j + 1 => cumsumAt f j + f j

/-- Sum of f over the indices [0, n). -/
def sumFin (n : ℕ) (f : ℕ → ℚ) : ℚ :=
  (List.range n).foldl (fun a j => a + f j) 0

/-- Maximum of f over the indices [0, n) (meaningful for 1 ≤ n). -/
def maxFin (n : ℕ) (f : ℕ → ℚ) : ℚ :=
  (List.range n).foldl (fun a j => max a (f j)) (f 0)

/-!
## PageTable (single-owner variant, src/levanter/layers/attention.py)

State: page_indices : i32[Seq, PagePerSeq], page_owners : i32[Page],
seq_lens : i32[Seq], and the static page_size.  The array shapes are carried
as explicit size fields.
-/

structure PageTable where
  maxSeqs : ℕ
  numPages : ℕ
  pagesPerSeq : ℕ
  pageSize : ℕ
  pageIndices : ℕ → ℕ → Int
  pageOwners : ℕ → Int
  seqLens : ℕ → Int

/-- PageTable.init: all pages free, all sequence slots unused, all page-list
entries INVALID. -/
def PageTable.init (maxPages maxSeqs pageSize maxPagesPerSeq : ℕ) : PageTable :=
  { maxSeqs := maxSeqs
    numPages := maxPages
    pagesPerSeq := maxPagesPerSeq
    pageSize := pageSize
    pageIndices := fun _ _ => -1
    pageOwners := fun _ => -1
    seqLens := fun _ => -1 }

def PageTable.maxLenPerSeq (T : PageTable) : ℕ := T.pageSize * T.pagesPerSeq

/-- PageTable.assign_seq_id_to_seq: seq_id := argmin(seq_lens); the slot is
set to length 0 and returned.  The source's guard against a full table is
commented out, so no check is performed. -/
def PageTable.assignSeqIdToSeq (T : PageTable) : PageTable × ℕ :=
  let seqId := argminIdx T.seqLens T.maxSeqs
  ({ T with seqLens := updAt T.seqLens seqId 0 }, seqId)

/-- The number of pages needed for a sequence of the given length:
(len + page_size - 1) // page_size with numpy floor division. -/
def pagesNeeded (pageSize : ℕ) (len : Int) : Int :=
  (len + (pageSize : Int) - 1) / (pageSize : Int)

/-- new_lens as computed by allocate_for_seqs: scatter-add the per-call new
token counts (at the -1-padded target positions, mode="drop") onto the
current lengths, keeping never-used untouched slots INVALID. -/
def PageTable.newLensOf (T : PageTable) (k : ℕ) (updatedSeqs newCounts : ℕ → Int) :
    ℕ → Int :=
  let padded : ℕ → Int := fun i => if updatedSeqs i < 0 then (T.maxSeqs : Int) else updatedSeqs i
  let currentLens : ℕ → Int := fun s => if T.seqLens s < 0 then 0 else T.seqLens s
  let newLensTmp : ℕ → Int :=
    foriLoop 0 (k : Int) (fun i L => addDrop L T.maxSeqs (padded i.toNat) (newCounts i.toNat)) currentLens
  fun s => if T.seqLens s < 0 then (if newLensTmp s > 0 then newLensTmp s else -1) else newLensTmp s

/-- PageBatchInfo: the immutable per-call snapshot produced by
allocate_for_seqs.  seqAxisSize and posAxisSize record the array shapes
(the "seq" axis of the gathered rows and the "position" axis of the token
destinations). -/
structure PageBatchInfo where
  seqAxisSize : ℕ
  posAxisSize : ℕ
  pageIndices : ℕ → ℕ → Int
  seqLens : ℕ → Int
  cuQLens : ℕ → Int
  numSeqs : ℕ
  newTokenDests : ℕ → Int
  pageSize : ℕ

/-- One iteration of the per-token destination walk of _slice_batch_info:
for a token owned by a valid sequence, read that sequence's cursor (traced
gathers clamp), translate the logical slot to a physical destination through
the new page table row, record it, and advance the cursor (the scatter-add
drops out-of-range sequence ids). -/
def tokenDestStep (pageSize maxSeqs pagesPerSeq : ℕ) (newPageIndices : ℕ → ℕ → Int)
    (tokens : ℕ → Int) (i : Int) (st : (ℕ → Int) × (ℕ → Int)) :
    (ℕ → Int) × (ℕ → Int) :=
  let dests := st.1
  let cur := st.2
  let sid := tokens i.toNat
  if 0 ≤ sid then
    let c := cur (clampIdx maxSeqs sid)
    let pageIdx := c / (pageSize : Int)
    let pageOffset := c % (pageSize : Int)
    let page := newPageIndices (clampIdx maxSeqs sid) (clampIdx pagesPerSeq pageIdx)
    let dest := if page < 0 then -1 else page * (pageSize : Int) + pageOffset
    (updAt dests i.toNat dest, addDrop cur maxSeqs sid 1)
  else st

/-- The per-sequence write cursors at the start of the destination walk:
each sequence's length before the call, with INVALID treated as 0. -/
def initialCursors (oldSeqLens : ℕ → Int) : ℕ → Int :=
  fun s => if oldSeqLens s < 0 then 0 else oldSeqLens s

/-- The full destination walk of _slice_batch_info over all m token slots. -/
def tokenDestLoop (pageSize maxSeqs pagesPerSeq : ℕ) (newPageIndices : ℕ → ℕ → Int)
    (oldSeqLens : ℕ → Int) (m : ℕ) (tokens : ℕ → Int) : (ℕ → Int) × (ℕ → Int) :=
  foriLoop 0 (m : Int) (tokenDestStep pageSize maxSeqs pagesPerSeq newPageIndices tokens)
    ((fun _ => -1), initialCursors oldSeqLens)

/-- PageTable._slice_batch_info: gather the touched rows and lengths
(INVALID-padded), count the real sequences, compute the cumulative query
lengths, and walk a per-sequence cursor (starting from each sequence's
pre-call length) over the token owner tags to produce per-token physical
destinations. -/
def PageTable.sliceBatchInfo (T : PageTable) (k : ℕ) (updatedSeqs : ℕ → Int)
    (oldSeqLens : ℕ → Int) (newTable : PageTable) (newTokenCounts : ℕ → Int)
    (m : ℕ) (tokens : ℕ → Int) : PageBatchInfo :=
  let safeU : ℕ → Int := fun i => if 0 ≤ updatedSeqs i then updatedSeqs i else 0
  let biPageIndices : ℕ → ℕ → Int := fun i j =>
    if 0 ≤ updatedSeqs i then newTable.pageIndices (clampIdx T.maxSeqs (safeU i)) j else -1
  let biSeqLens : ℕ → Int := fun i =>
    if 0 ≤ updatedSeqs i then newTable.seqLens (clampIdx T.maxSeqs (safeU i)) else -1
  let biNumSeqs : ℕ := ((Finset.range k).filter fun i => 0 ≤ updatedSeqs i).card
  let destsRun :=
    tokenDestLoop T.pageSize T.maxSeqs T.pagesPerSeq newTable.pageIndices oldSeqLens m tokens
  { seqAxisSize := k
    posAxisSize := m
    pageIndices := biPageIndices
    seqLens := biSeqLens
    cuQLens := cumsumAt newTokenCounts
    numSeqs := biNumSeqs
    newTokenDests := destsRun.1
    pageSize := T.pageSize }

/-- The body of the per-sequence page-allocation loop of allocate_for_seqs:
for sequence sId and page-list position pageIdx, take argmin(page_owners) as
the "free" page (the source's check that this page really is free is
commented out), mark it owned by sId, and record it at position pageIdx of
sId's page list (out-of-range positions are dropped). -/
def allocBody (numPages pagesPerSeq : ℕ) (sId : Int) (pageIdx : Int)
    (st : (ℕ → ℕ → Int) × (ℕ → Int)) : (ℕ → ℕ → Int) × (ℕ → Int) :=
  let freePageIdx := argminIdx st.2 numPages
  let po := updAt st.2 freePageIdx sId
  let pi2 :=
    if 0 ≤ pageIdx ∧ pageIdx < (pagesPerSeq : Int) then
      updAt2 st.1 sId.toNat pageIdx.toNat ((freePageIdx : Int))
    else st.1
  (pi2, po)

/-- The per-sequence page-allocation loop: walk the page-list positions in
[old_pages_needed, new_pages_needed) for one sequence. -/
def allocSeqLoop (numPages pagesPerSeq : ℕ) (oldNeeded newNeeded : ℕ → Int) (sId : Int)
    (st : (ℕ → ℕ → Int) × (ℕ → Int)) : (ℕ → ℕ → Int) × (ℕ → Int) :=
  foriLoop (oldNeeded sId.toNat) (newNeeded sId.toNat)
    (allocBody numPages pagesPerSeq sId) st

/-- The outer allocation loop of allocate_for_seqs over all sequence slots. -/
def allocOuterLoop (numPages pagesPerSeq maxSeqs : ℕ) (oldNeeded newNeeded : ℕ → Int)
    (st : (ℕ → ℕ → Int) × (ℕ → Int)) : (ℕ → ℕ → Int) × (ℕ → Int) :=
  foriLoop 0 (maxSeqs : Int) (allocSeqLoop numPages pagesPerSeq oldNeeded newNeeded) st

/-- PageTable.allocate_for_seqs: update the lengths, then for every sequence
walk the page indices in [old_pages_needed, new_pages_needed), each time
taking argmin(page_owners) as the "free" page (the source's check that this
page really is free is commented out), recording it in the sequence's page
list (out-of-range list positions are dropped), and finally build the
PageBatchInfo snapshot against the pre-call lengths. -/
def PageTable.allocateForSeqs (T : PageTable) (k : ℕ) (updatedSeqs newCounts : ℕ → Int)
    (m : ℕ) (tokens : ℕ → Int) : PageTable × PageBatchInfo :=
  let newLens := T.newLensOf k updatedSeqs newCounts
  let newNeeded : ℕ → Int := fun s => pagesNeeded T.pageSize (newLens s)
  let oldNeeded : ℕ → Int := fun s => pagesNeeded T.pageSize (T.seqLens s)
  let run := allocOuterLoop T.numPages T.pagesPerSeq T.maxSeqs oldNeeded newNeeded
    (T.pageIndices, T.pageOwners)
  let newTable : PageTable :=
    { T with pageIndices := run.1, pageOwners := run.2, seqLens := newLens }
  let batchInfo := T.sliceBatchInfo k updatedSeqs T.seqLens newTable newCounts m tokens
  (newTable, batchInfo)

/-- PageTable.free_pages: owners equal to the raw seq_id become free; the
seq_id row of the page list and its length are reset through static numpy
indexing, so a negative seq_id wraps to row max_seqs + seq_id, and a
seq_id outside [-max_seqs, max_seqs) raises IndexError (modelled as none). -/
def PageTable.freePages (T : PageTable) (seqId : Int) : Option PageTable :=
  if seqId < -(T.maxSeqs : Int) ∨ (T.maxSeqs : Int) ≤ seqId then none
  else
    let w : ℕ := (if seqId < 0 then seqId + (T.maxSeqs : Int) else seqId).toNat
    some
      { T with
        pageOwners := fun p => if T.pageOwners p = seqId then -1 else T.pageOwners p
        pageIndices := fun s j => if s = w then -1 else T.pageIndices s j
        seqLens := updAt T.seqLens w (-1) }

/-- Number of valid (non-INVALID) entries in a sequence's page-table row. -/
def countValidRow (T : PageTable) (s : ℕ) : ℕ :=
  ((Finset.range T.pagesPerSeq).filter fun j => 0 ≤ T.pageIndices s j).card

/-- Number of free entries (negative owner) of an owner array of size n. -/
def freeCountF (n : ℕ) (po : ℕ → Int) : ℕ :=
  ((Finset.range n).filter fun p => po p < 0).card

/-- Number of free pages (owner INVALID). -/
def freeCount (T : PageTable) : ℕ :=
  freeCountF T.numPages T.pageOwners

/-- Ownership invariant on a (page_indices, page_owners) pair as it moves
through the allocation loop. -/
def pairConsistent (numPages pagesPerSeq maxSeqs : ℕ)
    (st : (ℕ → ℕ → Int) × (ℕ → Int)) : Prop :=
  (∀ p, p < numPages → -1 ≤ st.2 p ∧ st.2 p < (maxSeqs : Int)) ∧
  (∀ s, s < maxSeqs → ∀ j, j < pagesPerSeq → 0 ≤ st.1 s j →
    st.1 s j < (numPages : Int) ∧ st.2 (st.1 s j).toNat = (s : Int))

/-- Number of occurrences of the sequence id sid among the first i token
owner tags. -/
def occCount (tokens : ℕ → Int) (sid : Int) (i : ℕ) : ℕ :=
  ((Finset.range i).filter fun j => tokens j = sid).card

/-- The logical cache slot used for token i by the destination walk: the
owning sequence's pre-call length (INVALID read as 0) plus the number of
earlier tokens of the same sequence in this call. -/
def logicalSlot (oldSeqLens : ℕ → Int) (tokens : ℕ → Int) (i : ℕ) : Int :=
  (if oldSeqLens (tokens i).toNat < 0 then 0 else oldSeqLens (tokens i).toNat) +
    (occCount tokens (tokens i) i : Int)

/-- Physical destination of a logical slot c through a page-table row: the
page at (clamped) position c / page_size, then page * page_size + c %
page_size, or INVALID if that row entry is INVALID. -/
def destOfSlot (pageSize pagesPerSeq : ℕ) (row : ℕ → Int) (c : Int) : Int :=
  let page := row (clampIdx pagesPerSeq (c / (pageSize : Int)))
  if page < 0 then -1 else page * (pageSize : Int) + c % (pageSize : Int)

/-- Row-shape invariant backing the allocation-conservation property: sizes
are positive, lengths are at least INVALID and within max_len_per_seq, and
each sequence's page row is a valid prefix of exactly pages_needed(length)
entries (for unused sequences, of no entries). -/
def rowShapeInv (T : PageTable) : Prop :=
  1 ≤ T.pageSize ∧ 1 ≤ T.numPages ∧
  ∀ s, s < T.maxSeqs →
    -1 ≤ T.seqLens s ∧ T.seqLens s ≤ (T.maxLenPerSeq : Int) ∧
    ∀ j, j < T.pagesPerSeq →
      (0 ≤ T.pageIndices s j ↔ (j : Int) < pagesNeeded T.pageSize (T.seqLens s))

/-- Reachable states for the allocation-conservation claim: any interleaving
of the four operations, where assign_seq_id_to_seq is only called when a
free slot exists, new-token counts are nonnegative, and no allocation pushes
a sequence past max_len_per_seq (and free_pages calls are those that do not
raise). -/
inductive ReachC3 : PageTable → Prop
  | init (maxPages maxSeqs pageSize maxPagesPerSeq : ℕ)
      (hps : 1 ≤ pageSize) (hpg : 1 ≤ maxPages) :
      ReachC3 (PageTable.init maxPages maxSeqs pageSize maxPagesPerSeq)
  | assign (T : PageTable) (h : ReachC3 T)
      (hfree : ∃ s, s < T.maxSeqs ∧ T.seqLens s = -1) :
      ReachC3 (T.assignSeqIdToSeq).1
  | alloc (T : PageTable) (k : ℕ) (us cs : ℕ → Int) (m : ℕ) (toks : ℕ → Int)
      (h : ReachC3 T) (hcs : ∀ i, i < k → 0 ≤ cs i)
      (hcap : ∀ s, s < T.maxSeqs → T.newLensOf k us cs s ≤ (T.maxLenPerSeq : Int)) :
      ReachC3 (T.allocateForSeqs k us cs m toks).1
  | free (T T2 : PageTable) (sid : Int) (h : ReachC3 T)
      (hf : T.freePages sid = some T2) :
      ReachC3 T2

/-!
## KvPageCache and KvPageState (src/levanter/layers/attention.py)

The physical cache buffer has shape [page, slot, 2 * kv_heads, head_dim]
(keys in the first half of the head axis, values in the second half).
-/

structure KvPageCache where
  numPages : ℕ
  pageSize : ℕ
  kvHeadsTotal : ℕ
  headDim : ℕ
  kvPages : ℕ → ℕ → ℕ → ℕ → ℚ

structure KvPageState where
  cache : KvPageCache
  batchInfo : PageBatchInfo

/-- One scatter of update_kv_cache: write vals for every token into the
cache at (dest / page_size, dest % page_size) over the head range
[headLo, headLo + headCount); an INVALID destination is redirected to the
out-of-range coordinates (num_pages, page_size), which the scatter then
drops, so it is never written. -/
def scatterTokens (numPages pageSize : ℕ) (dests : ℕ → Int) (m : ℕ)
    (headLo headCount : ℕ) (vals : ℕ → ℕ → ℕ → ℚ)
    (cache : ℕ → ℕ → ℕ → ℕ → ℚ) : ℕ → ℕ → ℕ → ℕ → ℚ :=
  foriLoop 0 (m : Int)
    (fun i c =>
      let dest := dests i.toNat
      let tp : Int := if 0 ≤ dest then dest / (pageSize : Int) else (numPages : Int)
      let ts : Int := if 0 ≤ dest then dest % (pageSize : Int) else (pageSize : Int)
      if 0 ≤ tp ∧ tp < (numPages : Int) ∧ 0 ≤ ts ∧ ts < (pageSize : Int) then
        fun pg sl h d =>
          if pg = tp.toNat ∧ sl = ts.toNat ∧ headLo ≤ h ∧ h < headLo + headCount then
            vals i.toNat (h - headLo) d
          else c pg sl h d
      else c)
    cache

/-- KvPageState.update_kv_cache: scatter the new keys into the first
kv_heads head coordinates and the new values into the second kv_heads head
coordinates of the cache at the destinations from batch_info; the batch_info
itself is passed through unchanged. -/
def KvPageState.updateKvCache (st : KvPageState) (kvHeads : ℕ)
    (newK newV : ℕ → ℕ → ℕ → ℚ) : KvPageState :=
  let m := st.batchInfo.posAxisSize
  let dests := st.batchInfo.newTokenDests
  let c1 := scatterTokens st.cache.numPages st.cache.pageSize dests m 0 kvHeads
    newK st.cache.kvPages
  let c2 := scatterTokens st.cache.numPages st.cache.pageSize dests m kvHeads kvHeads
    newV c1
  { st with cache := { st.cache with kvPages := c2 } }

/-- Concrete KvPageState used as a witness input: a 1-page, 1-slot cache and
a batch whose single token has an INVALID destination. -/
def witnessCache : KvPageCache :=
  { numPages := 1, pageSize := 1, kvHeadsTotal := 2, headDim := 1,
    kvPages := fun _ _ _ _ => 0 }

def witnessBatchInfo : PageBatchInfo :=
  { seqAxisSize := 1, posAxisSize := 1, pageIndices := fun _ _ => -1,
    seqLens := fun _ => -1, cuQLens := fun _ => 0, numSeqs := 0,
    newTokenDests := fun _ => -1, pageSize := 1 }

def witnessState : KvPageState :=
  { cache := witnessCache, batchInfo := witnessBatchInfo }

/-- Ownership invariant backing the no-double-ownership property: sizes are
positive, every owner entry is INVALID or a valid slot id, and every valid
page-list entry points at an in-range page owned by exactly that slot. -/
def ownerConsistent (T : PageTable) : Prop :=
  1 ≤ T.pageSize ∧ 1 ≤ T.numPages ∧
  (∀ p, p < T.numPages → -1 ≤ T.pageOwners p ∧ T.pageOwners p < (T.maxSeqs : Int)) ∧
  (∀ s, s < T.maxSeqs → ∀ j, j < T.pagesPerSeq → 0 ≤ T.pageIndices s j →
    T.pageIndices s j < (T.numPages : Int) ∧
    T.pageOwners (T.pageIndices s j).toNat = (s : Int))

/-- Total number of pages an allocate_for_seqs call will try to take from
the free pool, computed from the same length bookkeeping the call uses. -/
def pagesRequested (T : PageTable) (k : ℕ) (us cs : ℕ → Int) : ℕ :=
  ∑ s ∈ Finset.range T.maxSeqs,
    (pagesNeeded T.pageSize (T.newLensOf k us cs s) -
      pagesNeeded T.pageSize (T.seqLens s)).toNat

/-- Reachable states for the no-double-ownership claim: any interleaving of
the four operations in which every allocate_for_seqs call finds at least as
many free pages as it requests (no capacity exhaustion), and free_pages
calls are those that do not raise. -/
inductive ReachC4 : PageTable → Prop
  | init (maxPages maxSeqs pageSize maxPagesPerSeq : ℕ)
      (hps : 1 ≤ pageSize) (hpg : 1 ≤ maxPages) :
      ReachC4 (PageTable.init maxPages maxSeqs pageSize maxPagesPerSeq)
  | assign (T : PageTable) (h : ReachC4 T) : ReachC4 (T.assignSeqIdToSeq).1
  | alloc (T : PageTable) (k : ℕ) (us cs : ℕ → Int) (m : ℕ) (toks : ℕ → Int)
      (h : ReachC4 T) (hfree : pagesRequested T k us cs ≤ freeCount T) :
      ReachC4 (T.allocateForSeqs k us cs m toks).1
  | free (T T2 : PageTable) (sid : Int) (h : ReachC4 T)
      (hf : T.freePages sid = some T2) :
      ReachC4 T2

/-- Invariant of the destination walk after the first iI iterations: cursors
hold the pre-call lengths advanced by the occurrences seen so far, processed
token slots hold their destinations, and unprocessed ones are INVALID. -/
def destWalkInv (pageSize maxSeqs pagesPerSeq : ℕ) (NT : ℕ → ℕ → Int)
    (oldLens : ℕ → Int) (tokens : ℕ → Int) (iI : Int)
    (st : (ℕ → Int) × (ℕ → Int)) : Prop :=
  (∀ s : ℕ, s < maxSeqs →
      st.2 s = initialCursors oldLens s + (occCount tokens (s : Int) iI.toNat : Int)) ∧
  (∀ j, j < iI.toNat →
      (tokens j < 0 → st.1 j = -1) ∧
      (0 ≤ tokens j → st.1 j =
        destOfSlot pageSize pagesPerSeq (NT (tokens j).toNat)
          (logicalSlot oldLens tokens j))) ∧
  (∀ j, iI.toNat ≤ j → st.1 j = -1)

/-!
## default_ragged_paged_attention (src/levanter/layers/attention.py)

The reference kernel is embedded over ℚ with the transcendental functions
exp and tanh abstracted as parameters (no property of them is needed for
the causal-masking claim, and this keeps every definition executable).  The
running max is initialized with -inf in the source; scores themselves are
always finite (masked entries are filled with -1e10, not -inf), so the max
accumulator is modelled by an extended value type with a bottom element,
with exp(-inf) = 0 as in IEEE arithmetic.

Blocked structure of the source: queries are processed in blocks of
Q_BS = min(4, num_tokens) positions (q is zero-padded so a full block can
always be sliced), and keys/values in blocks of KV_BS = min(32,
pages_per_seq) pages; hax.ds slices use jax.lax.dynamic_slice semantics
(the start is clamped so the slice fits), while the output block store uses
scatter semantics with mode="drop".
-/

inductive XVal
  | ninf
  | fin (x : ℚ)
  deriving DecidableEq

/-- Maximum on extended values (hax.maximum with a possibly -inf operand). -/
def XVal.maxv : XVal → XVal → XVal
  | XVal.ninf, b => b
  | XVal.fin a, XVal.ninf => XVal.fin a
  | XVal.fin a, XVal.fin b => XVal.fin (max a b)

/-- Subtract a finite value from an extended value. -/
def XVal.subFin : XVal → ℚ → XVal
  | XVal.ninf, _ => XVal.ninf
  | XVal.fin a, b => XVal.fin (a - b)

/-- The finite payload of an extended value (0 for -inf; only read when the
value is known finite). -/
def XVal.toFin : XVal → ℚ
  | XVal.ninf => 0
  | XVal.fin a => a

/-- exp on extended values for an abstract finite exp: exp(-inf) = 0. -/
def XVal.expv (E : ℚ → ℚ) : XVal → ℚ
  | XVal.ninf => 0
  | XVal.fin a => E a

/-- jax.lax.dynamic_slice start clamping: the start index is adjusted so
that a slice of the given size fits inside an axis of length n. -/
def dsClamp (n size : ℕ) (start : Int) : ℕ :=
  (max 0 (min start ((n : Int) - size))).toNat

/-- The inputs of default_ragged_paged_attention, with the array shapes
explicit: q : [position(nTok), kv_head(numKvHeads), q_heads_per_group,
head_size], kvPages : [page(numPages), slot(pageSize), 2 * numKvHeads,
head_size], kvLens/pageIndices over a sequence axis of size numSeqAxis,
cuQLens of length numSeqs + 1, plus the softmax scale, optional logit soft
cap, and the abstract exp/tanh. -/
structure RpaInputs where
  nTok : ℕ
  numKvHeads : ℕ
  qHeadsPerGroup : ℕ
  headSize : ℕ
  q : ℕ → ℕ → ℕ → ℕ → ℚ
  numPages : ℕ
  pageSize : ℕ
  pagesPerSeq : ℕ
  numSeqAxis : ℕ
  kvPages : ℕ → ℕ → ℕ → ℕ → ℚ
  kvLens : ℕ → Int
  pageIndices : ℕ → ℕ → Int
  cuQLens : ℕ → Int
  numSeqs : ℕ
  smScale : ℚ
  softCap : Option ℚ
  expF : ℚ → ℚ
  tanhF : ℚ → ℚ

/-- Q_BS = min(4, q.axis_size("position")). -/
def RpaInputs.QBS (A : RpaInputs) : ℕ := min 4 A.nTok

/-- KV_BS = min(32, page_indices.axis_size("page")). -/
def RpaInputs.KVBS (A : RpaInputs) : ℕ := min 32 A.pagesPerSeq

/-- padding_amount = (Q_BS - nTok % Q_BS) % Q_BS + Q_BS. -/
def RpaInputs.paddingAmount (A : RpaInputs) : ℕ :=
  (A.QBS - A.nTok % A.QBS) % A.QBS + A.QBS

/-- The padded position-axis length. -/
def RpaInputs.nPad (A : RpaInputs) : ℕ := A.nTok + A.paddingAmount

/-- q scaled by sm_scale and zero-padded to nPad positions. -/
def RpaInputs.paddedQ (A : RpaInputs) : ℕ → ℕ → ℕ → ℕ → ℚ :=
  fun p h g d => if p < A.nTok then A.smScale * A.q p h g d else 0

/-- q_len = cu_q_lens[s+1] - cu_q_lens[s]. -/
def RpaInputs.qLen (A : RpaInputs) (s : ℕ) : Int := A.cuQLens (s + 1) - A.cuQLens s

/-- num_q_blocks = ceil(q_len / Q_BS). -/
def RpaInputs.numQBlocks (A : RpaInputs) (s : ℕ) : Int :=
  (A.qLen s + A.QBS - 1) / (A.QBS : Int)

/-- q_start = cu_q_lens[s] + q_block_id * Q_BS. -/
def RpaInputs.qStart (A : RpaInputs) (s : ℕ) (qb : Int) : Int :=
  A.cuQLens s + qb * A.QBS

/-- kv_len = kv_lens["seq", seq_id] (traced gather clamps). -/
def RpaInputs.kvLenOf (A : RpaInputs) (s : ℕ) : Int :=
  A.kvLens (clampIdx A.numSeqAxis (s : Int))

/-- q_pos_id_start = kv_len - q_len + q_start - cu_q_lens[s]. -/
def RpaInputs.qPosStart (A : RpaInputs) (s : ℕ) (qb : Int) : Int :=
  A.kvLenOf s - A.qLen s + A.qStart s qb - A.cuQLens s

/-- q_pos_id_end = q_pos_id_start + q_len. -/
def RpaInputs.qPosEnd (A : RpaInputs) (s : ℕ) (qb : Int) : Int :=
  A.qPosStart s qb + A.qLen s

/-- The logical position label of row r of a query block. -/
def RpaInputs.qTok (A : RpaInputs) (s : ℕ) (qb : Int) (r : ℕ) : Int :=
  A.qPosStart s qb + r

/-- kv_pos_per_block = page_size * KV_BS. -/
def RpaInputs.kvPosPerBlock (A : RpaInputs) : ℕ := A.pageSize * A.KVBS

/-- num_kv_blocks = ceil(kv_len / kv_pos_per_block). -/
def RpaInputs.numKvBlocks (A : RpaInputs) (s : ℕ) : Int :=
  (A.kvLenOf s + A.kvPosPerBlock - 1) / (A.kvPosPerBlock : Int)

/-- The clamped start of the page-list window of kv block kb
(page_indices["seq", s, "page", ds(kb * KV_BS, KV_BS)]). -/
def RpaInputs.pStart (A : RpaInputs) (_s : ℕ) (kb : Int) : ℕ :=
  dsClamp A.pagesPerSeq A.KVBS (kb * A.KVBS)

/-- Entry mi of the page-list window of kv block kb. -/
def RpaInputs.blockPage (A : RpaInputs) (s : ℕ) (kb : Int) (mi : ℕ) : Int :=
  A.pageIndices (clampIdx A.numSeqAxis (s : Int)) (A.pStart s kb + mi)

/-- Flattened kv block entry j (page-major over the window, then slot),
gathered from the cache with clip semantics on the page index. -/
def RpaInputs.kvBlockVal (A : RpaInputs) (s : ℕ) (kb : Int) (j h2 d : ℕ) : ℚ :=
  A.kvPages (clampIdx A.numPages (A.blockPage s kb (j / A.pageSize)))
    (j % A.pageSize) h2 d

/-- The flattened kv block length KV_BS * page_size. -/
def RpaInputs.nKv (A : RpaInputs) : ℕ := A.KVBS * A.pageSize

/-- The position label of kv block entry j: kv_pos_start + j. -/
def RpaInputs.kvTokLabel (A : RpaInputs) (kb : Int) (j : ℕ) : Int :=
  kb * A.KVBS * A.pageSize + j

/-- Row r of the query block of (s, qb). -/
def RpaInputs.qBlock (A : RpaInputs) (s : ℕ) (qb : Int) (r h g d : ℕ) : ℚ :=
  A.paddedQ (dsClamp A.nPad A.QBS (A.qStart s qb) + r) h g d

/-- k_block = kv_block["kv_head", 0:H]. -/
def RpaInputs.kBlock (A : RpaInputs) (s : ℕ) (kb : Int) (j h d : ℕ) : ℚ :=
  A.kvBlockVal s kb j h d

/-- v_block = kv_block["kv_head", H:]. -/
def RpaInputs.vBlock (A : RpaInputs) (s : ℕ) (kb : Int) (j h d : ℕ) : ℚ :=
  A.kvBlockVal s kb j (A.numKvHeads + h) d

/-- attn_b = hax.dot(q_block, k_block, axis=head_size). -/
def RpaInputs.attnRaw (A : RpaInputs) (s : ℕ) (qb kb : Int) (r h g j : ℕ) : ℚ :=
  sumFin A.headSize (fun d => A.qBlock s qb r h g d * A.kBlock s kb j h d)

/-- The optional logit soft cap: tanh(attn / cap) * cap. -/
def RpaInputs.attnCap (A : RpaInputs) (s : ℕ) (qb kb : Int) (r h g j : ℕ) : ℚ :=
  match A.softCap with
  | none => A.attnRaw s qb kb r h g j
  | some cap => A.tanhF (A.attnRaw s qb kb r h g j / cap) * cap

/-- attn_mask = (kv_tok <= q_tok) & (kv_tok < kv_len) & (q_tok < q_pos_id_end). -/
def RpaInputs.maskAt (A : RpaInputs) (s : ℕ) (qb kb : Int) (r j : ℕ) : Prop :=
  A.kvTokLabel kb j ≤ A.qTok s qb r ∧ A.kvTokLabel kb j < A.kvLenOf s ∧
    A.qTok s qb r < A.qPosEnd s qb

instance (A : RpaInputs) (s : ℕ) (qb kb : Int) (r j : ℕ) :
    Decidable (A.maskAt s qb kb r j) := by
  unfold RpaInputs.maskAt
  infer_instance

/-- attn_b after masking: hax.where(attn_mask, attn_b, -1e10). -/
def RpaInputs.attnMasked (A : RpaInputs) (s : ℕ) (qb kb : Int) (r h g j : ℕ) : ℚ :=
  if A.maskAt s qb kb r j then A.attnCap s qb kb r h g j else -(10 ^ 10 : ℚ)

/-- The (o_b, sum_exp_b, max_b) carry of the inner flash-attention loop. -/
structure RpaCarry where
  oB : ℕ → ℕ → ℕ → ℕ → ℚ
  sumB : ℕ → ℕ → ℕ → ℚ
  maxB : ℕ → ℕ → ℕ → XVal

/-- The body of _compute_attention_for_kv_block: online-softmax update of
the carry from kv block kb. -/
def RpaInputs.kvStep (A : RpaInputs) (s : ℕ) (qb kb : Int) (c : RpaCarry) : RpaCarry :=
  let newMax : ℕ → ℕ → ℕ → XVal := fun r h g =>
    XVal.maxv (c.maxB r h g)
      (XVal.fin (maxFin A.nKv (fun j => A.attnMasked s qb kb r h g j)))
  let pij : ℕ → ℕ → ℕ → ℕ → ℚ := fun r h g j =>
    if A.maskAt s qb kb r j then
      A.expF (A.attnMasked s qb kb r h g j - (newMax r h g).toFin)
    else 0
  let expDiff : ℕ → ℕ → ℕ → ℚ := fun r h g =>
    XVal.expv A.expF ((c.maxB r h g).subFin (newMax r h g).toFin)
  { oB := fun r h g d => expDiff r h g * c.oB r h g d +
      sumFin A.nKv (fun j => pij r h g j * A.vBlock s kb j h d)
    sumB := fun r h g => expDiff r h g * c.sumB r h g +
      sumFin A.nKv (fun j => pij r h g j)
    maxB := newMax }

/-- The initial carry of the kv loop: o_b sliced from the current output,
sum_exp_b = 0, max_b = -inf. -/
def RpaInputs.kvLoopInit (A : RpaInputs) (s : ℕ) (qb : Int)
    (o : ℕ → ℕ → ℕ → ℕ → ℚ) : RpaCarry :=
  { oB := fun r h g d => o (dsClamp A.nPad A.QBS (A.qStart s qb) + r) h g d
    sumB := fun _ _ _ => 0
    maxB := fun _ _ _ => XVal.ninf }

/-- The full kv loop of one query block. -/
def RpaInputs.kvLoop (A : RpaInputs) (s : ℕ) (qb : Int)
    (o : ℕ → ℕ → ℕ → ℕ → ℚ) : RpaCarry :=
  foriLoop 0 (A.numKvBlocks s) (fun kb c => A.kvStep s qb kb c) (A.kvLoopInit s qb o)

/-- The normalized, range-masked output block of (s, qb):
sum_exp_b = max(sum_exp_b, 1e-10); o_b / sum_exp_b; zero outside the valid
query range. -/
def RpaInputs.blockOut (A : RpaInputs) (s : ℕ) (qb : Int)
    (o : ℕ → ℕ → ℕ → ℕ → ℚ) (r h g d : ℕ) : ℚ :=
  let c := A.kvLoop s qb o
  let sumv := max (c.sumB r h g) (1 / 10 ^ 10 : ℚ)
  if A.qTok s qb r < A.qPosEnd s qb then c.oB r h g d / sumv else 0

/-- The scatter store of one query block's output back into the output
array (o.at[position, ds(q_start, Q_BS)].set(o_b, mode="drop")). -/
def RpaInputs.blockWrite (A : RpaInputs) (s : ℕ) (qb : Int)
    (o : ℕ → ℕ → ℕ → ℕ → ℚ) : ℕ → ℕ → ℕ → ℕ → ℚ :=
  fun p h g d =>
    if A.qStart s qb ≤ (p : Int) ∧ (p : Int) < A.qStart s qb + A.QBS ∧ p < A.nPad then
      A.blockOut s qb o ((p : Int) - A.qStart s qb).toNat h g d
    else o p h g d

/-- _compute_attention_for_seq: loop over the query blocks of sequence s. -/
def RpaInputs.seqStep (A : RpaInputs) (s : ℕ)
    (o : ℕ → ℕ → ℕ → ℕ → ℚ) : ℕ → ℕ → ℕ → ℕ → ℚ :=
  foriLoop 0 (A.numQBlocks s) (fun qb o2 => A.blockWrite s qb o2) o

/-- The outer loop over sequences, starting from a zero output array. -/
def RpaInputs.run (A : RpaInputs) : ℕ → ℕ → ℕ → ℕ → ℚ :=
  foriLoop 0 (A.numSeqs : Int) (fun sI o => A.seqStep sI.toNat o)
    (fun _ _ _ _ => 0)

/-- default_ragged_paged_attention: run the blocked loops and slice the
result back to the original nTok positions. -/
def defaultRaggedPagedAttention (A : RpaInputs) : ℕ → ℕ → ℕ → ℕ → ℚ :=
  fun p h g d => if p < A.nTok then A.run p h g d else 0

/-!
## Storage-precision model of default_ragged_paged_attention

The numeric-policy claim is about dtypes, not values: which precision each
accumulator of the kernel is kept in.  The model below traces the jax dtype
of every accumulator through the kernel body, line by line, using jax's
promotion rule between float32 and bfloat16 (a python scalar is weakly
typed and does not promote the other operand).
-/

inductive Dtype
  | f32
  | bf16
  deriving DecidableEq

/-- Bit width of the storage precision. -/
def Dtype.width : Dtype → ℕ
  | f32 => 32
  | bf16 => 16

/-- jax type promotion between float32 and bfloat16. -/
def promoteDtype : Dtype → Dtype → Dtype
  | Dtype.f32, _ => Dtype.f32
  | _, Dtype.f32 => Dtype.f32
  | Dtype.bf16, Dtype.bf16 => Dtype.bf16

/-- The dtypes of the kernel's per-block accumulators. -/
structure RpaAccumDtypes where
  attnScores : Dtype
  runningMax : Dtype
  runningSum : Dtype
  outAccumBody : Dtype
  outStored : Dtype

/-- Dtype trace of default_ragged_paged_attention for query storage
precision qDtype and key/value storage precision kvDtype:
q * sm_scale keeps the query dtype (weak scalar); attn_b = dot(q, k)
promotes; the where(mask, attn_b, -1e10) fill is a weak scalar; max_b is
initialized with hax.full(-inf) and sum_exp_b with hax.zeros, both float32
by default; new_max_b = maximum(max_b, max(attn_b)); P_ij =
exp(attn_b - new_max_b); exp_diff = exp(max_b - new_max_b); sum_exp_b =
exp_diff * sum_exp_b + sum(P_ij); o_b = exp_diff * o_b + dot(P_ij, v) where
o_b is a block of o = zeros_like(q); and the final o.at[...].set(o_b) store
casts o_b to the dtype of o, i.e. the query dtype. -/
def rpaAccumDtypes (qDtype kvDtype : Dtype) : RpaAccumDtypes :=
  let qScaled := qDtype
  let attn := promoteDtype qScaled kvDtype
  let attnMasked := attn
  let maxInit := Dtype.f32
  let sumInit := Dtype.f32
  let newMax := promoteDtype maxInit attnMasked
  let pij := promoteDtype attnMasked newMax
  let expDiff := promoteDtype maxInit newMax
  let sumNew := promoteDtype (promoteDtype expDiff sumInit) pij
  let oInit := qDtype
  let oNew := promoteDtype (promoteDtype expDiff oInit) (promoteDtype pij kvDtype)
  let stored := qDtype
  { attnScores := attnMasked, runningMax := newMax, runningSum := sumNew,
    outAccumBody := oNew, outStored := stored }

/-!
## Concrete scenarios

These are the concrete call chains used by the scenario claim, the
counterexamples and the failing-input evaluations.  Each is a plain
composition of the embedded operations starting from PageTable.init.
-/

/-- Spec scenario: page_size = 4, max_pages = 2, max_seqs = 1 (and 2 pages
per sequence so that 5 tokens fit), after assigning one sequence. -/
def scenarioTable : PageTable := ((PageTable.init 2 1 4 2).assignSeqIdToSeq).1

/-- Spec scenario: allocate 5 new tokens for sequence 0. -/
def scenarioAlloc : PageTable × PageBatchInfo :=
  scenarioTable.allocateForSeqs 1 (fun _ => 0) (fun _ => 5) 5 (fun _ => 0)

/-- Exhaustion chain: max_pages = 1, max_seqs = 2, page_size = 4.  Sequence 0
is assigned and fills the only page with 4 tokens; sequence 1 is assigned. -/
def exhaustTable : PageTable :=
  (((((PageTable.init 1 2 4 1).assignSeqIdToSeq).1.allocateForSeqs
      1 (fun _ => 0) (fun _ => 4) 4 (fun _ => 0)).1).assignSeqIdToSeq).1

/-- Exhaustion chain: sequence 1 then asks for 1 token although no free page
exists. -/
def exhaustAlloc : PageTable :=
  (exhaustTable.allocateForSeqs 1 (fun _ => 1) (fun _ => 1) 1 (fun _ => 1)).1

/-- Non-monotone-destination chain: page_size = 2, max_pages = 2,
max_seqs = 2, 2 pages per sequence.  Sequence 1 takes page 0, sequence 0
takes page 1, sequence 1 is freed (freeing page 0). -/
def zigzagTable : PageTable :=
  (((((((PageTable.init 2 2 2 2).assignSeqIdToSeq).1.assignSeqIdToSeq).1.allocateForSeqs
        1 (fun _ => 1) (fun _ => 1) 1 (fun _ => 1)).1.allocateForSeqs
        1 (fun _ => 0) (fun _ => 1) 1 (fun _ => 0)).1.freePages 1).getD
    (PageTable.init 2 2 2 2))

/-- Non-monotone-destination chain: sequence 0 (length 1, backed by page 1)
receives 2 further tokens in one call; the new page is page 0. -/
def zigzagAlloc : PageTable × PageBatchInfo :=
  zigzagTable.allocateForSeqs 1 (fun _ => 0) (fun _ => 2) 2 (fun _ => 0)

/-- Length-overflow chain: page_size = 1, 1 page per sequence, max_pages = 2,
max_seqs = 1; the assigned sequence receives 2 tokens, exceeding
max_len_per_seq = 1. -/
def overflowAlloc : PageTable :=
  (((PageTable.init 2 1 1 1).assignSeqIdToSeq).1.allocateForSeqs
      1 (fun _ => 0) (fun _ => 2) 2 (fun _ => 0)).1

/-- A tiny concrete attention input used to evaluate the causal-masking
property: one sequence of committed length 2, two query tokens, two pages of
one slot each (page i holds position i), all queries and cache entries 1. -/
def c2Awit : RpaInputs :=
  { nTok := 2
    numKvHeads := 1
    qHeadsPerGroup := 1
    headSize := 1
    q := fun _ _ _ _ => 1
    numPages := 2
    pageSize := 1
    pagesPerSeq := 2
    numSeqAxis := 1
    kvPages := fun _ _ _ _ => 1
    kvLens := fun _ => 2
    pageIndices := fun _ j => (j : Int)
    cuQLens := fun j => if j = 0 then 0 else 2
    numSeqs := 1
    smScale := 1
    softCap := none
    expF := fun x => 1 + x
    tanhF := fun x => x }

/-- A perturbed cache for the c2Awit input: page 1 (which backs position 1,
beyond the first query's causal position 0) is changed from 1 to 999. -/
def c2Kv2 : ℕ → ℕ → ℕ → ℕ → ℚ :=
  fun pg _ _ _ => if pg = 0 then 1 else 999

/-!
## Theorems

First, generic facts about the loop primitives; then the claims.
-/

theorem foldlRange_rel_idx {σ τ : Type _} (n : ℕ) (g : ℕ → σ → σ) (h : ℕ → τ → τ)
    (R : ℕ → σ → τ → Prop) (x : σ) (y : τ)
    (h0 : R 0 x y) (hstep : ∀ k u v, k < n → R k u v → R (k + 1) (g k u) (h k v)) :
    R n ((List.range n).foldl (fun t k => g k t) x)
        ((List.range n).foldl (fun t k => h k t) y) := by
  induction n with
  | zero => simpa using h0
  | succ n ih =>
      rw [List.range_succ, List.foldl_append, List.foldl_append]
      exact hstep n _ _ (Nat.lt_succ_self n)
        (ih (fun k u v hk => hstep k u v (Nat.lt_succ_of_lt hk)))

theorem foriLoop_rel_idx {σ τ : Type _} (a b : Int) (f : Int → σ → σ) (g : Int → τ → τ)
    (R : Int → σ → τ → Prop) (x : σ) (y : τ) (hab : a ≤ b)
    (h0 : R a x y)
    (hstep : ∀ i u v, a ≤ i → i < b → R i u v → R (i + 1) (f i u) (g i v)) :
    R b (foriLoop a b f x) (foriLoop a b g y) := by
  obtain ⟨n, rfl⟩ : ∃ n : ℕ, b = a + (n : Int) := ⟨(b - a).toNat, by omega⟩
  rw [foriLoop, foriLoop]
  have hn : (a + (n : Int) - a).toNat = n := by omega
  rw [hn]
  exact foldlRange_rel_idx n
    (fun k t => f (a + (k : Int)) t) (fun k t => g (a + (k : Int)) t)
    (fun k u v => R (a + (k : Int)) u v) x y (by simpa using h0)
    (fun k u v hk hr => by
      have := hstep (a + (k : Int)) u v (by omega) (by omega) hr
      simpa [add_assoc] using this)

theorem foriLoop_idx {σ : Type _} (a b : Int) (f : Int → σ → σ)
    (Q : Int → σ → Prop) (x : σ) (hab : a ≤ b)
    (h0 : Q a x)
    (hstep : ∀ i u, a ≤ i → i < b → Q i u → Q (i + 1) (f i u)) :
    Q b (foriLoop a b f x) := by
  have := foriLoop_rel_idx a b f (fun _ (u : Unit) => u)
    (fun i u _ => Q i u) x () hab h0
    (fun i u v h1 h2 hr => hstep i u h1 h2 hr)
  exact this

theorem foriLoop_inv {σ : Type _} (a b : Int) (f : Int → σ → σ)
    (P : σ → Prop) (x : σ)
    (h0 : P x)
    (hstep : ∀ i u, a ≤ i → i < b → P u → P (f i u)) :
    P (foriLoop a b f x) := by
  by_cases hab : a ≤ b
  · exact foriLoop_idx a b f (fun _ u => P u) x hab h0 hstep
  · have : (b - a).toNat = 0 := by omega
    rw [foriLoop, this]
    simpa using h0

theorem foriLoop_rel {σ τ : Type _} (a b : Int) (f : Int → σ → σ) (g : Int → τ → τ)
    (R : σ → τ → Prop) (x : σ) (y : τ)
    (h0 : R x y)
    (hstep : ∀ i u v, a ≤ i → i < b → R u v → R (f i u) (g i v)) :
    R (foriLoop a b f x) (foriLoop a b g y) := by
  by_cases hab : a ≤ b
  · exact foriLoop_rel_idx a b f g (fun _ u v => R u v) x y hab h0 hstep
  · have : (b - a).toNat = 0 := by omega
    rw [foriLoop, foriLoop, this]
    simpa using h0

theorem foriLoop_of_ge {σ : Type _} (a b : Int) (f : Int → σ → σ) (x : σ)
    (hab : b ≤ a) : foriLoop a b f x = x := by
  have : (b - a).toNat = 0 := by omega
  rw [foriLoop, this]
  rfl

theorem clampIdx_eq (n : ℕ) (i : Int) (_h0 : 0 ≤ i) (h1 : i < (n : Int)) :
    clampIdx n i = i.toNat := by
  unfold clampIdx
  omega

theorem occCount_zero (tokens : ℕ → Int) (sid : Int) : occCount tokens sid 0 = 0 := by
  simp [occCount]

theorem occCount_succ (tokens : ℕ → Int) (sid : Int) (i : ℕ) :
    occCount tokens sid (i + 1) =
      occCount tokens sid i + (if tokens i = sid then 1 else 0) := by
  unfold occCount
  rw [Finset.range_succ, Finset.filter_insert]
  by_cases h : tokens i = sid
  · rw [if_pos h, if_pos h, Finset.card_insert_of_not_mem (by simp)]
  · rw [if_neg h, if_neg h, add_zero]

theorem occCount_mono (tokens : ℕ → Int) (sid : Int) {i j : ℕ} (h : i ≤ j) :
    occCount tokens sid i ≤ occCount tokens sid j := by
  unfold occCount
  exact Finset.card_le_card
    (Finset.filter_subset_filter _ (Finset.range_subset.mpr h))

theorem argminIdx_spec (f : ℕ → Int) (n : ℕ) (h : 1 ≤ n) :
    argminIdx f n < n ∧ ∀ p, p < n → f (argminIdx f n) ≤ f p := by
  have := foldlRange_rel_idx n (fun j best => if f j < f best then j else best)
    (fun _ (u : Unit) => u)
    (fun k best _ => best < n ∧ ∀ p, p < k → f best ≤ f p) 0 ()
    ⟨h, fun p hp => absurd hp (by omega)⟩
    (fun k best _ hk hb => by
      refine ⟨?_, ?_⟩
      · by_cases hc : f k < f best
        · simpa [hc] using hk
        · simpa [hc] using hb.1
      · intro p hp
        by_cases hc : f k < f best
        · simp only [if_pos hc]
          rcases Nat.lt_succ_iff_lt_or_eq.mp hp with hp' | hp'
          · exact le_trans (le_of_lt hc) (hb.2 p hp')
          · subst hp'; exact le_refl _
        · simp only [if_neg hc]
          rcases Nat.lt_succ_iff_lt_or_eq.mp hp with hp' | hp'
          · exact hb.2 p hp'
          · subst hp'; exact le_of_not_lt hc)
  exact this

theorem argminIdx_lt (f : ℕ → Int) (n : ℕ) (h : 1 ≤ n) : argminIdx f n < n :=
  (argminIdx_spec f n h).1

theorem argminIdx_le (f : ℕ → Int) (n : ℕ) (h : 1 ≤ n) (p : ℕ) (hp : p < n) :
    f (argminIdx f n) ≤ f p :=
  (argminIdx_spec f n h).2 p hp

theorem pagesNeeded_nonneg (ps : ℕ) (hps : 1 ≤ ps) (len : Int) (h : 0 ≤ len) :
    0 ≤ pagesNeeded ps len := by
  unfold pagesNeeded
  apply Int.ediv_nonneg <;> omega

theorem pagesNeeded_mono (ps : ℕ) {a b : Int} (h : a ≤ b) :
    pagesNeeded ps a ≤ pagesNeeded ps b := by
  unfold pagesNeeded
  by_cases hps : 1 ≤ ps
  · exact Int.ediv_le_ediv (by omega) (by omega)
  · have : ps = 0 := by omega
    simp [this]

theorem pagesNeeded_le (ps pps : ℕ) (hps : 1 ≤ ps) (len : Int)
    (h : len ≤ (ps : Int) * pps) : pagesNeeded ps len ≤ (pps : Int) := by
  have h1 : pagesNeeded ps len ≤ pagesNeeded ps ((ps : Int) * pps) := pagesNeeded_mono ps h
  have h2 : pagesNeeded ps ((ps : Int) * pps) = pps := by
    unfold pagesNeeded
    have hrw : (ps : Int) * pps + ps - 1 = (ps - 1) + (pps : Int) * ps := by ring
    rw [hrw, Int.add_mul_ediv_right _ _ (by omega : (ps : Int) ≠ 0),
        Int.ediv_eq_zero_of_lt (by omega) (by omega)]
    omega
  omega

theorem pagesNeeded_invalid (ps : ℕ) (hps : 1 ≤ ps) : pagesNeeded ps (-1) ≤ 0 := by
  unfold pagesNeeded
  rcases Nat.lt_or_ge 1 ps with h | h
  · rw [Int.ediv_eq_zero_of_lt (by omega) (by omega)]
  · have : ps = 1 := by omega
    subst this
    decide

/-- The updated lengths never shrink and stay at least INVALID when the new
token counts are nonnegative. -/
theorem newLensOf_spec (T : PageTable) (k : ℕ) (us cs : ℕ → Int)
    (hcs : ∀ i, i < k → 0 ≤ cs i) (s : ℕ) :
    T.seqLens s ≤ T.newLensOf k us cs s ∧ -1 ≤ T.newLensOf k us cs s := by
  unfold PageTable.newLensOf
  dsimp only
  have htmp : ∀ t : ℕ, (if T.seqLens t < 0 then 0 else T.seqLens t) ≤
      foriLoop 0 (k : Int)
        (fun i L => addDrop L T.maxSeqs
          (if us i.toNat < 0 then (T.maxSeqs : Int) else us i.toNat) (cs i.toNat))
        (fun t => if T.seqLens t < 0 then 0 else T.seqLens t) t := by
    intro t
    have := foriLoop_inv 0 (k : Int)
      (fun i L => addDrop L T.maxSeqs
        (if us i.toNat < 0 then (T.maxSeqs : Int) else us i.toNat) (cs i.toNat))
      (fun L => ∀ t : ℕ, (if T.seqLens t < 0 then 0 else T.seqLens t) ≤ L t)
      (fun t => if T.seqLens t < 0 then 0 else T.seqLens t)
      (fun _ => le_refl _)
      (fun i L h0i hik hL => by
        intro t
        have hcsi : 0 ≤ cs i.toNat := hcs i.toNat (by omega)
        dsimp only
        unfold addDrop
        by_cases hidx : 0 ≤ (if us i.toNat < 0 then (T.maxSeqs : Int) else us i.toNat) ∧
            (if us i.toNat < 0 then (T.maxSeqs : Int) else us i.toNat) < (T.maxSeqs : Int)
        · rw [if_pos hidx]
          unfold updAt
          by_cases he : t = (if us i.toNat < 0 then (T.maxSeqs : Int) else us i.toNat).toNat
          · rw [if_pos he, he]
            exact le_trans (hL _) (by omega)
          · rw [if_neg he]
            exact hL t
        · rw [if_neg hidx]
          exact hL t)
    exact this t
  by_cases hneg : T.seqLens s < 0
  · rw [if_pos hneg]
    by_cases hpos : foriLoop 0 (k : Int)
        (fun i L => addDrop L T.maxSeqs
          (if us i.toNat < 0 then (T.maxSeqs : Int) else us i.toNat) (cs i.toNat))
        (fun t => if T.seqLens t < 0 then 0 else T.seqLens t) s > 0
    · rw [if_pos hpos]
      omega
    · rw [if_neg hpos]
      omega
  · rw [if_neg hneg]
    have := htmp s
    rw [if_neg hneg] at this
    omega

theorem countValidRow_eq (T : PageTable) (s : ℕ) (b : Int)
    (hshape : ∀ j, j < T.pagesPerSeq →
      (0 ≤ T.pageIndices s j ↔ (j : Int) < b))
    (hb0 : 0 ≤ b) (hb1 : b ≤ (T.pagesPerSeq : Int)) :
    (countValidRow T s : Int) = b := by
  unfold countValidRow
  have hset : (Finset.range T.pagesPerSeq).filter (fun j => 0 ≤ T.pageIndices s j) =
      Finset.range b.toNat := by
    ext j
    simp only [Finset.mem_filter, Finset.mem_range]
    constructor
    · rintro ⟨hj, hv⟩
      have := (hshape j hj).mp hv
      omega
    · intro hj
      have hjp : j < T.pagesPerSeq := by omega
      exact ⟨hjp, (hshape j hjp).mpr (by omega)⟩
  rw [hset, Finset.card_range]
  omega

/-- allocate_for_seqs preserves the row-shape invariant when counts are
nonnegative and no sequence is pushed past max_len_per_seq. -/
theorem allocPreservesShape (T : PageTable) (k : ℕ) (us cs : ℕ → Int) (m : ℕ)
    (toks : ℕ → Int) (hinv : rowShapeInv T) (hcs : ∀ i, i < k → 0 ≤ cs i)
    (hcap : ∀ s, s < T.maxSeqs → T.newLensOf k us cs s ≤ (T.maxLenPerSeq : Int)) :
    rowShapeInv (T.allocateForSeqs k us cs m toks).1 := by
  obtain ⟨hps, hpg, hrows⟩ := hinv
  have hNL := newLensOf_spec T k us cs hcs
  have hcapN : ∀ s, s < T.maxSeqs →
      pagesNeeded T.pageSize (T.newLensOf k us cs s) ≤ (T.pagesPerSeq : Int) := by
    intro s hs
    apply pagesNeeded_le _ _ hps
    have h2 := hcap s hs
    unfold PageTable.maxLenPerSeq at h2
    push_cast at h2 ⊢
    exact h2
  have hmono : ∀ s : ℕ, pagesNeeded T.pageSize (T.seqLens s) ≤
      pagesNeeded T.pageSize (T.newLensOf k us cs s) :=
    fun s => pagesNeeded_mono _ (hNL s).1
  have hloop : ∀ s, s < T.maxSeqs → ∀ j, j < T.pagesPerSeq →
      (0 ≤ (allocOuterLoop T.numPages T.pagesPerSeq T.maxSeqs
          (fun s => pagesNeeded T.pageSize (T.seqLens s))
          (fun s => pagesNeeded T.pageSize (T.newLensOf k us cs s))
          (T.pageIndices, T.pageOwners)).1 s j ↔
        (j : Int) < pagesNeeded T.pageSize (T.newLensOf k us cs s)) := by
    have hbase : ∀ s, s < T.maxSeqs → ∀ j, j < T.pagesPerSeq →
        (0 ≤ (T.pageIndices, T.pageOwners).1 s j ↔
          (j : Int) < (if (s : Int) < (0 : Int) then
            pagesNeeded T.pageSize (T.newLensOf k us cs s)
          else pagesNeeded T.pageSize (T.seqLens s))) := by
      intro s hs j hj
      rw [if_neg (by omega : ¬ (s : Int) < 0)]
      exact (hrows s hs).2.2 j hj
    have hstep : ∀ i st, (0 : Int) ≤ i → i < (T.maxSeqs : Int) →
        (∀ s, s < T.maxSeqs → ∀ j, j < T.pagesPerSeq →
          (0 ≤ st.1 s j ↔ (j : Int) < (if (s : Int) < i then
            pagesNeeded T.pageSize (T.newLensOf k us cs s)
          else pagesNeeded T.pageSize (T.seqLens s)))) →
        (∀ s, s < T.maxSeqs → ∀ j, j < T.pagesPerSeq →
          (0 ≤ (allocSeqLoop T.numPages T.pagesPerSeq
              (fun s => pagesNeeded T.pageSize (T.seqLens s))
              (fun s => pagesNeeded T.pageSize (T.newLensOf k us cs s)) i st).1 s j ↔
            (j : Int) < (if (s : Int) < i + 1 then
              pagesNeeded T.pageSize (T.newLensOf k us cs s)
            else pagesNeeded T.pageSize (T.seqLens s)))) := by
      intro i st h0i him hQ
      have hit : i.toNat < T.maxSeqs := by omega
      have hito : ((i.toNat : ℕ) : Int) = i := by omega
      unfold allocSeqLoop
      -- inner loop: extend the prefix of row i.toNat one position at a time
      have hinner := foriLoop_idx (pagesNeeded T.pageSize (T.seqLens i.toNat))
        (pagesNeeded T.pageSize (T.newLensOf k us cs i.toNat))
        (allocBody T.numPages T.pagesPerSeq i)
        (fun pidx st2 => ∀ s, s < T.maxSeqs → ∀ j, j < T.pagesPerSeq →
          (0 ≤ st2.1 s j ↔ (j : Int) <
            (if s = i.toNat then
              max (pagesNeeded T.pageSize (T.seqLens s)) pidx
            else if (s : Int) < i then
              pagesNeeded T.pageSize (T.newLensOf k us cs s)
            else pagesNeeded T.pageSize (T.seqLens s))))
        st (hmono i.toNat) ?ibase ?istep
      case ibase =>
        intro s hs j hj
        have := hQ s hs j hj
        by_cases hsi : s = i.toNat
        · subst hsi
          rw [if_pos rfl, max_self]
          rw [if_neg (by omega)] at this
          exact this
        · rw [if_neg hsi]
          exact this
      case istep =>
        intro pidx st2 hlo hhi hR
        have hpidx_lt : pidx < (T.pagesPerSeq : Int) := by
          have := hcapN i.toNat hit
          omega
        unfold allocBody
        dsimp only
        intro s hs j hj
        by_cases hpidx0 : 0 ≤ pidx
        · rw [if_pos ⟨hpidx0, hpidx_lt⟩]
          have hRsj := hR s hs j hj
          unfold updAt2
          by_cases hhit : s = i.toNat ∧ j = pidx.toNat
          · obtain ⟨hs1, hj1⟩ := hhit
            rw [if_pos ⟨hs1, hj1⟩]
            subst hs1
            rw [if_pos rfl]
            constructor
            · intro _
              have : (j : Int) = pidx := by omega
              omega
            · intro _
              positivity
          · rw [if_neg hhit]
            by_cases hsi : s = i.toNat
            · subst hsi
              rw [if_pos rfl] at hRsj ⊢
              have hjne : (j : Int) ≠ pidx := by
                intro hc
                exact hhit ⟨rfl, by omega⟩
              constructor
              · intro hv
                have := hRsj.mp hv
                omega
              · intro hb
                apply hRsj.mpr
                omega
            · rw [if_neg hsi] at hRsj ⊢
              exact hRsj
        · rw [if_neg (by tauto)]
          have hRsj := hR s hs j hj
          by_cases hsi : s = i.toNat
          · subst hsi
            rw [if_pos rfl] at hRsj ⊢
            constructor
            · intro hv
              have := hRsj.mp hv
              omega
            · intro hb
              apply hRsj.mpr
              omega
          · rw [if_neg hsi] at hRsj ⊢
            exact hRsj
      intro s hs j hj
      have := hinner s hs j hj
      by_cases hsi : s = i.toNat
      · subst hsi
        rw [if_pos rfl] at this
        rw [if_pos (by omega)]
        rw [max_eq_right (hmono i.toNat)] at this
        exact this
      · rw [if_neg hsi] at this
        have hne : (s : Int) ≠ i := by omega
        by_cases hlt : (s : Int) < i
        · rw [if_pos hlt] at this
          rw [if_pos (by omega)]
          exact this
        · rw [if_neg hlt] at this
          rw [if_neg (by omega)]
          exact this
    have main := foriLoop_idx 0 (T.maxSeqs : Int)
      (allocSeqLoop T.numPages T.pagesPerSeq
        (fun s => pagesNeeded T.pageSize (T.seqLens s))
        (fun s => pagesNeeded T.pageSize (T.newLensOf k us cs s)))
      (fun iI st => ∀ s, s < T.maxSeqs → ∀ j, j < T.pagesPerSeq →
        (0 ≤ st.1 s j ↔ (j : Int) < (if (s : Int) < iI then
          pagesNeeded T.pageSize (T.newLensOf k us cs s)
        else pagesNeeded T.pageSize (T.seqLens s))))
      (T.pageIndices, T.pageOwners) (by positivity) hbase hstep
    intro s hs j hj
    have := main s hs j hj
    rw [if_pos (by omega : (s : Int) < (T.maxSeqs : Int))] at this
    unfold allocOuterLoop
    exact this
  unfold PageTable.allocateForSeqs
  dsimp only
  refine ⟨hps, hpg, fun s hs => ⟨(hNL s).2, hcap s hs, fun j hj => hloop s hs j hj⟩⟩

theorem freeCountF_pos (n : ℕ) (po : ℕ → Int) (h : 0 < freeCountF n po) :
    ∃ p, p < n ∧ po p < 0 := by
  obtain ⟨p, hp⟩ := Finset.card_pos.mp h
  simp only [Finset.mem_filter, Finset.mem_range] at hp
  exact ⟨p, hp.1, hp.2⟩

theorem freeCountF_update (n : ℕ) (po : ℕ → Int) (a : ℕ) (v : Int)
    (ha : a < n) (hfa : po a < 0) (hv : 0 ≤ v) :
    freeCountF n (updAt po a v) + 1 = freeCountF n po := by
  unfold freeCountF
  have hmem : a ∈ (Finset.range n).filter fun p => po p < 0 := by
    simp only [Finset.mem_filter, Finset.mem_range]
    exact ⟨ha, hfa⟩
  have hset : (Finset.range n).filter (fun p => updAt po a v p < 0) =
      ((Finset.range n).filter fun p => po p < 0).erase a := by
    ext p
    simp only [Finset.mem_erase, Finset.mem_filter, Finset.mem_range]
    unfold updAt
    by_cases hpa : p = a
    · rw [if_pos hpa]
      subst hpa
      constructor
      · rintro ⟨-, hc⟩; omega
      · rintro ⟨hc, -⟩; exact absurd rfl hc
    · rw [if_neg hpa]
      tauto
  rw [hset, Finset.card_erase_of_mem hmem]
  have := Finset.card_pos.mpr ⟨a, hmem⟩
  omega

/-- One allocation-body step preserves the ownership pair invariant and
consumes exactly one free page, provided a free page exists. -/
theorem allocBody_step (numPages pagesPerSeq maxSeqs : ℕ) (hnp : 1 ≤ numPages)
    (sId pidx : Int) (hs0 : 0 ≤ sId) (hsM : sId < (maxSeqs : Int))
    (st : (ℕ → ℕ → Int) × (ℕ → Int))
    (hA : pairConsistent numPages pagesPerSeq maxSeqs st)
    (hfree : 0 < freeCountF numPages st.2) :
    pairConsistent numPages pagesPerSeq maxSeqs
        (allocBody numPages pagesPerSeq sId pidx st) ∧
    freeCountF numPages (allocBody numPages pagesPerSeq sId pidx st).2 + 1 =
      freeCountF numPages st.2 := by
  obtain ⟨hown, hcons⟩ := hA
  obtain ⟨p0, hp0, hp0neg⟩ := freeCountF_pos _ _ hfree
  have halt : argminIdx st.2 numPages < numPages := argminIdx_lt _ _ hnp
  have hamin : st.2 (argminIdx st.2 numPages) < 0 := by
    have := argminIdx_le st.2 numPages hnp p0 hp0
    omega
  have hnotlisted : ∀ s, s < maxSeqs → ∀ j, j < pagesPerSeq → 0 ≤ st.1 s j →
      (st.1 s j).toNat ≠ argminIdx st.2 numPages := by
    intro s hs j hj hv hc
    have := (hcons s hs j hj hv).2
    rw [hc] at this
    omega
  unfold allocBody
  dsimp only
  constructor
  · constructor
    · intro p hp
      dsimp only
      unfold updAt
      by_cases hpa : p = argminIdx st.2 numPages
      · rw [if_pos hpa]
        omega
      · rw [if_neg hpa]
        exact hown p hp
    · intro s hs j hj
      dsimp only
      by_cases hir : 0 ≤ pidx ∧ pidx < (pagesPerSeq : Int)
      · rw [if_pos hir]
        unfold updAt2 updAt
        by_cases hhit : s = sId.toNat ∧ j = pidx.toNat
        · rw [if_pos hhit]
          intro _
          refine ⟨by omega, ?_⟩
          rw [Int.toNat_natCast, if_pos rfl]
          omega
        · rw [if_neg hhit]
          intro hv
          obtain ⟨hlt, hop⟩ := hcons s hs j hj hv
          refine ⟨hlt, ?_⟩
          rw [if_neg (hnotlisted s hs j hj hv)]
          exact hop
      · rw [if_neg hir]
        intro hv
        obtain ⟨hlt, hop⟩ := hcons s hs j hj hv
        refine ⟨hlt, ?_⟩
        unfold updAt
        rw [if_neg (hnotlisted s hs j hj hv)]
        exact hop
  · exact freeCountF_update numPages st.2 _ sId halt hamin hs0

/-- allocate_for_seqs preserves the ownership invariant when it is given at
least as many free pages as it requests. -/
theorem allocPreservesOwnership (T : PageTable) (k : ℕ) (us cs : ℕ → Int) (m : ℕ)
    (toks : ℕ → Int) (hinv : ownerConsistent T)
    (hfree : pagesRequested T k us cs ≤ freeCount T) :
    ownerConsistent (T.allocateForSeqs k us cs m toks).1 := by
  obtain ⟨hps, hpg, hown, hcons⟩ := hinv
  have hloop :
      pairConsistent T.numPages T.pagesPerSeq T.maxSeqs
        (allocOuterLoop T.numPages T.pagesPerSeq T.maxSeqs
          (fun s => pagesNeeded T.pageSize (T.seqLens s))
          (fun s => pagesNeeded T.pageSize (T.newLensOf k us cs s))
          (T.pageIndices, T.pageOwners)) := by
    have hstep : ∀ i st, (0 : Int) ≤ i → i < (T.maxSeqs : Int) →
        (pairConsistent T.numPages T.pagesPerSeq T.maxSeqs st ∧
          (∑ s ∈ Finset.Ico i.toNat T.maxSeqs,
            (pagesNeeded T.pageSize (T.newLensOf k us cs s) -
              pagesNeeded T.pageSize (T.seqLens s)).toNat) ≤
            freeCountF T.numPages st.2) →
        (pairConsistent T.numPages T.pagesPerSeq T.maxSeqs
            (allocSeqLoop T.numPages T.pagesPerSeq
              (fun s => pagesNeeded T.pageSize (T.seqLens s))
              (fun s => pagesNeeded T.pageSize (T.newLensOf k us cs s)) i st) ∧
          (∑ s ∈ Finset.Ico (i + 1).toNat T.maxSeqs,
            (pagesNeeded T.pageSize (T.newLensOf k us cs s) -
              pagesNeeded T.pageSize (T.seqLens s)).toNat) ≤
            freeCountF T.numPages
              (allocSeqLoop T.numPages T.pagesPerSeq
                (fun s => pagesNeeded T.pageSize (T.seqLens s))
                (fun s => pagesNeeded T.pageSize (T.newLensOf k us cs s)) i st).2) := by
      intro i st h0i him hQ
      obtain ⟨hA, hC⟩ := hQ
      have hit : i.toNat < T.maxSeqs := by omega
      have hito : ((i.toNat : ℕ) : Int) = i := by omega
      have hsplit : (∑ s ∈ Finset.Ico i.toNat T.maxSeqs,
            (pagesNeeded T.pageSize (T.newLensOf k us cs s) -
              pagesNeeded T.pageSize (T.seqLens s)).toNat) =
          (pagesNeeded T.pageSize (T.newLensOf k us cs i.toNat) -
              pagesNeeded T.pageSize (T.seqLens i.toNat)).toNat +
          ∑ s ∈ Finset.Ico (i.toNat + 1) T.maxSeqs,
            (pagesNeeded T.pageSize (T.newLensOf k us cs s) -
              pagesNeeded T.pageSize (T.seqLens s)).toNat :=
        Finset.sum_eq_sum_Ico_succ_bot hit _
      have hi1 : (i + 1).toNat = i.toNat + 1 := by omega
      rw [hi1]
      unfold allocSeqLoop
      dsimp only
      rcases le_or_lt (pagesNeeded T.pageSize (T.newLensOf k us cs i.toNat))
          (pagesNeeded T.pageSize (T.seqLens i.toNat)) with hle | hlt
      · rw [foriLoop_of_ge _ _ _ _ hle]
        refine ⟨hA, ?_⟩
        omega
      · have hinner := foriLoop_idx (pagesNeeded T.pageSize (T.seqLens i.toNat))
          (pagesNeeded T.pageSize (T.newLensOf k us cs i.toNat))
          (allocBody T.numPages T.pagesPerSeq i)
          (fun pidx st2 =>
            pairConsistent T.numPages T.pagesPerSeq T.maxSeqs st2 ∧
            (pagesNeeded T.pageSize (T.newLensOf k us cs i.toNat) - pidx).toNat +
              (∑ s ∈ Finset.Ico (i.toNat + 1) T.maxSeqs,
                (pagesNeeded T.pageSize (T.newLensOf k us cs s) -
                  pagesNeeded T.pageSize (T.seqLens s)).toNat) ≤
              freeCountF T.numPages st2.2)
          st (le_of_lt hlt) ⟨hA, by omega⟩ ?istep
        case istep =>
          intro pidx st2 hlo hhi hR
          obtain ⟨hA2, hC2⟩ := hR
          have hfree2 : 0 < freeCountF T.numPages st2.2 := by
            have : 1 ≤ (pagesNeeded T.pageSize (T.newLensOf k us cs i.toNat) - pidx).toNat := by
              omega
            omega
          have hbs := allocBody_step T.numPages T.pagesPerSeq T.maxSeqs hpg i pidx
            h0i (by omega) st2 hA2 hfree2
          refine ⟨hbs.1, ?_⟩
          have := hbs.2
          omega
        exact ⟨hinner.1, by
          have := hinner.2
          omega⟩
    have hbase :
        pairConsistent T.numPages T.pagesPerSeq T.maxSeqs (T.pageIndices, T.pageOwners) ∧
        (∑ s ∈ Finset.Ico ((0 : Int)).toNat T.maxSeqs,
          (pagesNeeded T.pageSize (T.newLensOf k us cs s) -
            pagesNeeded T.pageSize (T.seqLens s)).toNat) ≤
          freeCountF T.numPages (T.pageIndices, T.pageOwners).2 := by
      refine ⟨⟨hown, hcons⟩, ?_⟩
      have : ((0 : Int)).toNat = 0 := rfl
      rw [this, ← Finset.range_eq_Ico]
      exact hfree
    have main := foriLoop_idx 0 (T.maxSeqs : Int)
      (allocSeqLoop T.numPages T.pagesPerSeq
        (fun s => pagesNeeded T.pageSize (T.seqLens s))
        (fun s => pagesNeeded T.pageSize (T.newLensOf k us cs s)))
      (fun iI st =>
        pairConsistent T.numPages T.pagesPerSeq T.maxSeqs st ∧
        (∑ s ∈ Finset.Ico iI.toNat T.maxSeqs,
          (pagesNeeded T.pageSize (T.newLensOf k us cs s) -
            pagesNeeded T.pageSize (T.seqLens s)).toNat) ≤
          freeCountF T.numPages st.2)
      (T.pageIndices, T.pageOwners) (by positivity) hbase hstep
    unfold allocOuterLoop
    exact main.1
  unfold PageTable.allocateForSeqs
  dsimp only
  exact ⟨hps, hpg, hloop.1, hloop.2⟩

/-- Every state reachable under the C4 side conditions satisfies the
ownership invariant. -/
theorem reachC4_inv (T : PageTable) (h : ReachC4 T) : ownerConsistent T := by
  induction h with
  | init maxPages maxSeqs pageSize maxPagesPerSeq hps hpg =>
      unfold ownerConsistent PageTable.init
      dsimp only
      exact ⟨hps, hpg, fun p hp => ⟨le_refl _, by omega⟩,
        fun s hs j hj hv => absurd hv (by omega)⟩
  | assign T h ih =>
      exact ih
  | alloc T k us cs m toks h hfree ih =>
      exact allocPreservesOwnership T k us cs m toks ih hfree
  | free T T2 sid h hf ih =>
      obtain ⟨hps, hpg, hown, hcons⟩ := ih
      unfold PageTable.freePages at hf
      by_cases hguard : sid < -(T.maxSeqs : Int) ∨ (T.maxSeqs : Int) ≤ sid
      · rw [if_pos hguard] at hf
        exact absurd hf (by simp)
      · rw [if_neg hguard] at hf
        have hT2 := Option.some_injective _ hf.symm
        subst hT2
        push_neg at hguard
        have hms : 1 ≤ T.maxSeqs := by omega
        unfold ownerConsistent
        dsimp only
        refine ⟨hps, hpg, ?_, ?_⟩
        · intro p hp
          by_cases hpo : T.pageOwners p = sid
          · rw [if_pos hpo]
            constructor <;> omega
          · rw [if_neg hpo]
            exact hown p hp
        · intro s hs j hj
          by_cases hsw : s = (if sid < 0 then sid + (T.maxSeqs : Int) else sid).toNat
          · rw [if_pos hsw]
            intro hv
            exact absurd hv (by omega)
          · rw [if_neg hsw]
            intro hv
            obtain ⟨hlt, hop⟩ := hcons s hs j hj hv
            refine ⟨hlt, ?_⟩
            have hnotsid : ¬ T.pageOwners (T.pageIndices s j).toNat = sid := by
              rw [hop]
              intro hc
              apply hsw
              rw [if_neg (by omega : ¬ sid < 0)]
              omega
            rw [if_neg hnotsid]
            exact hop

/-- Every state reachable under the C3 side conditions satisfies the
row-shape invariant. -/
theorem reachC3_inv (T : PageTable) (h : ReachC3 T) : rowShapeInv T := by
  induction h with
  | init maxPages maxSeqs pageSize maxPagesPerSeq hps hpg =>
      unfold rowShapeInv PageTable.init PageTable.maxLenPerSeq
      dsimp only
      refine ⟨hps, hpg, fun s hs => ⟨le_refl _, by exact le_trans (by omega) (Int.natCast_nonneg _), fun j hj => ?_⟩⟩
      have hpn := pagesNeeded_invalid pageSize hps
      omega
  | assign T h hfree ih =>
      obtain ⟨hps, hpg, hrows⟩ := ih
      obtain ⟨s0, hs0, hs0v⟩ := hfree
      have hn : 1 ≤ T.maxSeqs := by omega
      have halt : argminIdx T.seqLens T.maxSeqs < T.maxSeqs := argminIdx_lt _ _ hn
      have hav : T.seqLens (argminIdx T.seqLens T.maxSeqs) = -1 := by
        have h1 := argminIdx_le T.seqLens T.maxSeqs hn s0 hs0
        have h2 := (hrows _ halt).1
        omega
      unfold PageTable.assignSeqIdToSeq
      unfold rowShapeInv PageTable.maxLenPerSeq at *
      dsimp only
      refine ⟨hps, hpg, fun s hs => ?_⟩
      obtain ⟨hl1, hl2, hshape⟩ := hrows s hs
      unfold updAt
      by_cases hsa : s = argminIdx T.seqLens T.maxSeqs
      · rw [if_pos hsa]
        refine ⟨by omega, le_trans (by omega) (Int.natCast_nonneg _), fun j hj => ?_⟩
        have hold := hshape j hj
        rw [hsa] at hold
        rw [hav] at hold
        have hz : pagesNeeded T.pageSize 0 = 0 := by
          unfold pagesNeeded
          rw [Int.ediv_eq_zero_of_lt (by omega) (by omega)]
        have hinv := pagesNeeded_invalid T.pageSize hps
        rw [hsa, hz]
        omega
      · rw [if_neg hsa]
        exact ⟨hl1, hl2, hshape⟩
  | alloc T k us cs m toks h hcs hcap ih =>
      exact allocPreservesShape T k us cs m toks ih hcs hcap
  | free T T2 sid h hf ih =>
      obtain ⟨hps, hpg, hrows⟩ := ih
      unfold PageTable.freePages at hf
      by_cases hguard : sid < -(T.maxSeqs : Int) ∨ (T.maxSeqs : Int) ≤ sid
      · rw [if_pos hguard] at hf
        exact absurd hf (by simp)
      · rw [if_neg hguard] at hf
        have hT2 := Option.some_injective _ hf.symm
        subst hT2
        unfold rowShapeInv PageTable.maxLenPerSeq at *
        dsimp only
        refine ⟨hps, hpg, fun s hs => ?_⟩
        obtain ⟨hl1, hl2, hshape⟩ := hrows s hs
        have hw : (if sid < 0 then sid + (T.maxSeqs : Int) else sid).toNat < T.maxSeqs := by
          by_cases hsn : sid < 0
          · rw [if_pos hsn]; omega
          · rw [if_neg hsn]; omega
        unfold updAt
        by_cases hsw : s = (if sid < 0 then sid + (T.maxSeqs : Int) else sid).toNat
        · rw [if_pos hsw]
          refine ⟨by omega, le_trans (by omega) (Int.natCast_nonneg _), fun j hj => ?_⟩
          rw [if_pos hsw]
          have hinv := pagesNeeded_invalid T.pageSize hps
          constructor
          · intro hc
            omega
          · intro hc
            omega
        · rw [if_neg hsw]
          refine ⟨hl1, hl2, fun j hj => ?_⟩
          rw [if_neg hsw]
          exact hshape j hj

/-- Characterization of the destination walk: dests are INVALID outside the
token range and for INVALID-tagged tokens, and otherwise translate the
token's logical slot (pre-call length plus earlier same-sequence tokens)
through the new page table. -/
theorem tokenDestLoop_spec (pageSize maxSeqs pagesPerSeq : ℕ) (NT : ℕ → ℕ → Int)
    (oldLens : ℕ → Int) (m : ℕ) (tokens : ℕ → Int)
    (htoks : ∀ i, i < m → tokens i < (maxSeqs : Int)) :
    (∀ i, i < m → tokens i < 0 →
        (tokenDestLoop pageSize maxSeqs pagesPerSeq NT oldLens m tokens).1 i = -1) ∧
    (∀ i, i < m → 0 ≤ tokens i →
        (tokenDestLoop pageSize maxSeqs pagesPerSeq NT oldLens m tokens).1 i =
          destOfSlot pageSize pagesPerSeq (NT (tokens i).toNat)
            (logicalSlot oldLens tokens i)) := by
  have hbase : destWalkInv pageSize maxSeqs pagesPerSeq NT oldLens tokens 0
      ((fun _ => -1), initialCursors oldLens) := by
    refine ⟨fun s _ => ?_, fun j hj => absurd hj (by omega), fun j _ => rfl⟩
    simp [occCount_zero]
  have hstep : ∀ i st, (0 : Int) ≤ i → i < (m : Int) →
      destWalkInv pageSize maxSeqs pagesPerSeq NT oldLens tokens i st →
      destWalkInv pageSize maxSeqs pagesPerSeq NT oldLens tokens (i + 1)
        (tokenDestStep pageSize maxSeqs pagesPerSeq NT tokens i st) := by
    intro i st h0i him hIH
    obtain ⟨hcur, hdone, hrest⟩ := hIH
    have hi1 : (i + 1).toNat = i.toNat + 1 := by omega
    unfold tokenDestStep destWalkInv
    dsimp only
    by_cases hsid : 0 ≤ tokens i.toNat
    · have hlt : tokens i.toNat < (maxSeqs : Int) := htoks i.toNat (by omega)
      have hclamp : clampIdx maxSeqs (tokens i.toNat) = (tokens i.toNat).toNat :=
        clampIdx_eq _ _ hsid hlt
      have hcast : ((tokens i.toNat).toNat : Int) = tokens i.toNat := by omega
      rw [if_pos hsid]
      dsimp only
      rw [hi1]
      refine ⟨?_, ?_, ?_⟩
      · intro s hs
        have hcs := hcur s hs
        rw [addDrop, if_pos ⟨hsid, hlt⟩, occCount_succ]
        by_cases hse : s = (tokens i.toNat).toNat
        · subst hse
          rw [updAt]
          rw [if_pos rfl, hcs, if_pos hcast.symm]
          push_cast
          ring
        · rw [updAt]
          rw [if_neg hse, hcs]
          have h2 : ¬ tokens i.toNat = (s : Int) := by omega
          rw [if_neg h2, add_zero]
      · intro j hj
        rcases Nat.lt_succ_iff_lt_or_eq.mp hj with hj' | hj'
        · have hold := hdone j hj'
          rw [updAt]
          rw [if_neg (by omega)]
          exact hold
        · subst hj'
          refine ⟨fun hneg => absurd hsid (by omega), fun _ => ?_⟩
          rw [updAt]
          rw [if_pos rfl, hclamp, hcur (tokens i.toNat).toNat (by omega)]
          rw [destOfSlot, logicalSlot, initialCursors, hcast]
      · intro j hj
        rw [updAt]
        rw [if_neg (by omega)]
        exact hrest j (by omega)
    · rw [if_neg hsid]
      rw [hi1]
      refine ⟨?_, ?_, ?_⟩
      · intro s hs
        rw [hcur s hs, occCount_succ]
        have h2 : ¬ tokens i.toNat = (s : Int) := by omega
        rw [if_neg h2, add_zero]
      · intro j hj
        rcases Nat.lt_succ_iff_lt_or_eq.mp hj with hj' | hj'
        · exact hdone j hj'
        · subst hj'
          exact ⟨fun _ => hrest i.toNat le_rfl, fun hpos => absurd hpos hsid⟩
      · intro j hj
        exact hrest j (by omega)
  have main := foriLoop_idx 0 (m : Int)
    (tokenDestStep pageSize maxSeqs pagesPerSeq NT tokens)
    (destWalkInv pageSize maxSeqs pagesPerSeq NT oldLens tokens)
    ((fun _ => -1), initialCursors oldLens) (by positivity) hbase hstep
  obtain ⟨-, hmid, -⟩ := main
  exact ⟨fun i hi hneg => (hmid i (by omega)).1 hneg,
         fun i hi hpos => (hmid i (by omega)).2 hpos⟩

/-- C1: the capacity-exhaustion check of allocate_for_seqs is commented out
in the source, so when sequence 1 requests a page while no free page exists,
the call silently reassigns page 0 (still listed in sequence 0's row) to
sequence 1 instead of failing: both active rows list page 0 afterwards and
no error reaches the caller (the embedded function, like the source, has no
failure channel at all). -/
theorem c1_exhaustion_not_surfaced :
    exhaustAlloc.pageOwners 0 = 1 ∧
    exhaustAlloc.pageIndices 0 0 = 0 ∧
    exhaustAlloc.pageIndices 1 0 = 0 ∧
    exhaustAlloc.seqLens 0 = 4 ∧
    exhaustAlloc.seqLens 1 = 1 := by
  decide

/-- C4 counterexample: the state exhaustAlloc is reachable from
PageTable.init by assign/allocate calls, yet page 0 appears in the page
lists of the two distinct active sequences 0 and 1 simultaneously. -/
theorem c4_double_ownership_counterexample :
    0 ≤ exhaustAlloc.seqLens 0 ∧
    0 ≤ exhaustAlloc.seqLens 1 ∧
    exhaustAlloc.pageIndices 0 0 = 0 ∧
    exhaustAlloc.pageIndices 1 0 = 0 := by
  decide

/-- C5: on a table whose two slots are both active (lengths 4 and 1, so no
slot has length INVALID), assign_seq_id_to_seq does not return an INVALID
slot id and does not leave the table unchanged: it returns slot 1 and resets
that active slot's length to 0 (the source's "No unused seqs" guard is
commented out). -/
theorem c5_assign_clobbers_when_full :
    (∀ s, s < exhaustAlloc.maxSeqs → 0 ≤ exhaustAlloc.seqLens s) ∧
    (exhaustAlloc.assignSeqIdToSeq).2 = 1 ∧
    (exhaustAlloc.assignSeqIdToSeq).1.seqLens 1 = 0 := by
  decide

/-- C6: free_pages with the out-of-range id -1 is not a no-op: the static
index wraps (numpy semantics) to the last row, resetting active slot 1's
length and page list while leaving page 0's owner pointing at slot 1; and an
id at or beyond max_seqs raises (none) instead of returning the table
unchanged. -/
theorem c6_free_pages_out_of_range_not_noop :
    exhaustAlloc.seqLens 1 = 1 ∧
    (exhaustAlloc.freePages (-1)).map (fun t => t.seqLens 1) = some (-1) ∧
    (exhaustAlloc.freePages (-1)).map (fun t => t.pageOwners 0) = some 1 ∧
    (exhaustAlloc.freePages 2).isNone = true := by
  decide

/-- C7 counterexample: in the call zigzagAlloc both tokens belong to
sequence 0, yet their destinations are 3 and then 0 — not strictly
increasing and not contiguous from the pre-call length — because the page
allocated during the call (page 0) has a lower index than the page already
backing the sequence (page 1). -/
theorem c7_destinations_not_monotone_counterexample :
    (zigzagAlloc.2.newTokenDests 0 = 3 ∧ zigzagAlloc.2.newTokenDests 1 = 0) ∧
    ¬ zigzagAlloc.2.newTokenDests 0 < zigzagAlloc.2.newTokenDests 1 := by
  decide

/-- C7 (amended): within one allocate_for_seqs call the logical cache slots
backing a sequence's token destinations are strictly increasing and
contiguous starting from that sequence's pre-call length (the j-th token of
the sequence uses logical slot pre_call_length + j), and every token with an
INVALID sequence tag gets destination INVALID; each destination is the
logical slot translated through the sequence's new page-table row (INVALID
if the needed row entry is INVALID, e.g. after a failed row write).  The
physical destinations themselves need not be increasing, since a page
allocated during the call may have a lower index than a page the sequence
already owned. -/
theorem c7_destinations_logical (T : PageTable) (k : ℕ) (us cs : ℕ → Int) (m : ℕ)
    (toks : ℕ → Int) (htoks : ∀ i, i < m → toks i < (T.maxSeqs : Int)) :
    (∀ i, i < m → toks i < 0 →
        (T.allocateForSeqs k us cs m toks).2.newTokenDests i = -1) ∧
    (∀ i, i < m → 0 ≤ toks i →
        (T.allocateForSeqs k us cs m toks).2.newTokenDests i =
          destOfSlot T.pageSize T.pagesPerSeq
            ((T.allocateForSeqs k us cs m toks).1.pageIndices (toks i).toNat)
            (logicalSlot T.seqLens toks i)) ∧
    (∀ i1 i2, i1 < i2 → i2 < m → 0 ≤ toks i1 → toks i1 = toks i2 →
        logicalSlot T.seqLens toks i1 < logicalSlot T.seqLens toks i2) := by
  have h := tokenDestLoop_spec T.pageSize T.maxSeqs T.pagesPerSeq
      (T.allocateForSeqs k us cs m toks).1.pageIndices T.seqLens m toks htoks
  refine ⟨h.1, h.2, ?_⟩
  intro i1 i2 h12 hi2 hpos heq
  unfold logicalSlot
  rw [← heq]
  have hocc : occCount toks (toks i1) (i1 + 1) ≤ occCount toks (toks i1) i2 :=
    occCount_mono _ _ h12
  have hone : occCount toks (toks i1) (i1 + 1) = occCount toks (toks i1) i1 + 1 := by
    rw [occCount_succ, if_pos rfl]
  omega

/-- Witness for C7 (amended) at the zigzag scenario: token 1 of the call is
the second token of sequence 0, whose logical slot is the pre-call length 1
plus one, translated through the new row of sequence 0. -/
theorem c7_destinations_logical_witness :
    (∀ i, i < 2 → (fun _ => (0 : Int)) i < (zigzagTable.maxSeqs : Int)) ∧
    zigzagAlloc.2.newTokenDests 1 =
      destOfSlot zigzagTable.pageSize zigzagTable.pagesPerSeq
        (zigzagAlloc.1.pageIndices 0)
        (logicalSlot zigzagTable.seqLens (fun _ => (0 : Int)) 1) :=
  ⟨by decide,
   (c7_destinations_logical zigzagTable 1 (fun _ => 0) (fun _ => 2) 2 (fun _ => 0)
      (by decide)).2.1 1 (by decide) (by decide)⟩

/-- C3 counterexample: after an allocate_for_seqs call that pushes the
sequence's length to 2 with page_size = 1 but only 1 page slot per sequence,
the active sequence has 1 valid page entry while ceil(2/1) = 2: the row
write for the second page is silently dropped. -/
theorem c3_conservation_counterexample :
    0 ≤ overflowAlloc.seqLens 0 ∧
    countValidRow overflowAlloc 0 = 1 ∧
    pagesNeeded overflowAlloc.pageSize (overflowAlloc.seqLens 0) = 2 := by
  decide

/-- C3 (amended): after every allocate_for_seqs or free_pages call (indeed in
every reachable state) every active sequence has exactly
ceil(current_length / page_size) valid page-table entries, provided the
calls respect the caller contract: assign_seq_id_to_seq is only invoked when
a free slot exists, new-token counts are nonnegative, and no allocation
pushes a sequence's length past max_len_per_seq. -/
theorem c3_allocation_conservation (T : PageTable) (h : ReachC3 T) :
    ∀ s, s < T.maxSeqs → 0 ≤ T.seqLens s →
      (countValidRow T s : Int) = pagesNeeded T.pageSize (T.seqLens s) := by
  intro s hs hlen
  obtain ⟨hps, hpg, hrows⟩ := reachC3_inv T h
  obtain ⟨hl1, hl2, hshape⟩ := hrows s hs
  refine countValidRow_eq T s _ hshape (pagesNeeded_nonneg _ hps _ hlen) ?_
  apply pagesNeeded_le _ _ hps
  unfold PageTable.maxLenPerSeq at hl2
  push_cast at hl2 ⊢
  exact hl2

/-- Witness for C3 (amended): the spec scenario chain (init, assign, allocate
5 tokens) is reachable under the side conditions, and the active sequence
then owns exactly ceil(5/4) = 2 valid page entries. -/
theorem c3_allocation_conservation_witness :
    0 ≤ scenarioAlloc.1.seqLens 0 ∧
    (countValidRow scenarioAlloc.1 0 : Int) =
      pagesNeeded scenarioAlloc.1.pageSize (scenarioAlloc.1.seqLens 0) :=
  ⟨by decide,
   c3_allocation_conservation scenarioAlloc.1
     (ReachC3.alloc scenarioTable 1 (fun _ => 0) (fun _ => 5) 5 (fun _ => 0)
       (ReachC3.assign (PageTable.init 2 1 4 2)
         (ReachC3.init 2 1 4 2 (by decide) (by decide))
         ⟨0, by decide, by decide⟩)
       (fun i _ => by show (0 : Int) ≤ 5; decide)
       (fun s hs => by
         have hs1 : s < 1 := hs
         have hs0 : s = 0 := by omega
         subst hs0
         decide))
     0 (by decide) (by decide)⟩

/-- C4 (amended): in every state reachable from PageTable.init by
assign_seq_id_to_seq, allocate_for_seqs and free_pages calls in which every
allocation finds at least as many free pages as it requests (no capacity
exhaustion), no page index appears in the page lists of two different
sequence slots simultaneously; every page's owner entry is either INVALID
(free) or exactly one valid slot id, and every listed page is owned by
precisely the slot that lists it. -/
theorem c4_no_double_ownership (T : PageTable) (h : ReachC4 T) :
    (∀ s1 s2 j1 j2, s1 < T.maxSeqs → s2 < T.maxSeqs →
      j1 < T.pagesPerSeq → j2 < T.pagesPerSeq →
      0 ≤ T.pageIndices s1 j1 → T.pageIndices s1 j1 = T.pageIndices s2 j2 →
      s1 = s2) ∧
    (∀ p, p < T.numPages → T.pageOwners p = -1 ∨
      (0 ≤ T.pageOwners p ∧ T.pageOwners p < (T.maxSeqs : Int))) ∧
    (∀ s j, s < T.maxSeqs → j < T.pagesPerSeq → 0 ≤ T.pageIndices s j →
      T.pageOwners (T.pageIndices s j).toNat = (s : Int)) := by
  obtain ⟨hps, hpg, hown, hcons⟩ := reachC4_inv T h
  refine ⟨?_, ?_, fun s j hs hj hv => (hcons s hs j hj hv).2⟩
  · intro s1 s2 j1 j2 hs1 hs2 hj1 hj2 hv heq
    have h1 := (hcons s1 hs1 j1 hj1 hv).2
    have h2 := (hcons s2 hs2 j2 hj2 (heq ▸ hv)).2
    rw [heq, h2] at h1
    omega
  · intro p hp
    have := hown p hp
    omega

/-- Witness for C4 (amended): the spec scenario chain is reachable with
enough free pages at the allocation (it requests 2 of the 2 free pages), and
in the resulting state both pages listed by sequence 0 are owned by
sequence 0. -/
theorem c4_no_double_ownership_witness :
    scenarioAlloc.1.pageOwners (scenarioAlloc.1.pageIndices 0 0).toNat = 0 ∧
    scenarioAlloc.1.pageOwners (scenarioAlloc.1.pageIndices 0 1).toNat = 0 :=
  have hreach : ReachC4 scenarioAlloc.1 :=
    ReachC4.alloc scenarioTable 1 (fun _ => 0) (fun _ => 5) 5 (fun _ => 0)
      (ReachC4.assign (PageTable.init 2 1 4 2)
        (ReachC4.init 2 1 4 2 (by decide) (by decide)))
      (by decide)
  ⟨(c4_no_double_ownership scenarioAlloc.1 hreach).2.2 0 0 (by decide) (by decide)
      (by decide),
   (c4_no_double_ownership scenarioAlloc.1 hreach).2.2 0 1 (by decide) (by decide)
      (by decide)⟩

theorem cuMonoChain (cu : ℕ → Int) (n : ℕ) (h : ∀ j, j < n → cu j ≤ cu (j + 1)) :
    ∀ i j, i ≤ j → j ≤ n → cu i ≤ cu j := by
  intro i j hij hjn
  induction j with
  | zero =>
      have : i = 0 := by omega
      subst this
      exact le_refl _
  | succ j ih =>
      rcases Nat.lt_succ_iff_lt_or_eq.mp (Nat.lt_succ_of_le hij) with h1 | h1
      · exact le_trans (ih (by omega) (by omega)) (h j (by omega))
      · subst h1
        exact le_refl _

theorem sumFin_congr (n : ℕ) (f g : ℕ → ℚ) (h : ∀ j, j < n → f j = g j) :
    sumFin n f = sumFin n g := by
  unfold sumFin
  have := foldlRange_rel_idx n (fun j a => a + f j) (fun j a => a + g j)
    (fun _ a b => a = b) 0 0 rfl
    (fun k u v hk he => by dsimp only at he ⊢; rw [he, h k hk])
  exact this

theorem maxFin_congr (n : ℕ) (f g : ℕ → ℚ) (hn : 1 ≤ n) (h : ∀ j, j < n → f j = g j) :
    maxFin n f = maxFin n g := by
  unfold maxFin
  have := foldlRange_rel_idx n (fun j a => max a (f j)) (fun j a => max a (g j))
    (fun _ a b => a = b) (f 0) (g 0) (h 0 hn)
    (fun k u v hk he => by dsimp only at he ⊢; rw [he, h k hk])
  exact this

/-- Under the agreement hypothesis, an unmasked kv-block read of the query
row labelled p reads identical cache values in both runs: the flattened
entry j of kv block kb reads true position pStart*page_size + j, which is
at most its label kb*KV_BS*page_size + j, itself at most p by the causal
mask. -/
theorem rpa_kvread_agree (A : RpaInputs) (kv2 : ℕ → ℕ → ℕ → ℕ → ℚ)
    (s : ℕ) (p : Int) (qb kb : Int) (r : ℕ)
    (hps : 1 ≤ A.pageSize) (hsx : s < A.numSeqAxis)
    (hqtok : A.qTok s qb r = p) (h0kb : 0 ≤ kb)
    (hagree : ∀ i : ℕ, (i : Int) ≤ p → ∀ h2 d : ℕ,
      A.kvPages (clampIdx A.numPages (A.pageIndices s (i / A.pageSize)))
          (i % A.pageSize) h2 d =
        kv2 (clampIdx A.numPages (A.pageIndices s (i / A.pageSize)))
          (i % A.pageSize) h2 d)
    (j : ℕ) (hmask : A.maskAt s qb kb r j) :
    ∀ h2 d, A.kvBlockVal s kb j h2 d =
      RpaInputs.kvBlockVal { A with kvPages := kv2 } s kb j h2 d := by
  intro h2 d
  have hclamp : clampIdx A.numSeqAxis (s : Int) = s := by
    apply clampIdx_eq <;> omega
  have hpslb : (A.pStart s kb : Int) ≤ kb * A.KVBS := by
    unfold RpaInputs.pStart dsClamp
    have : 0 ≤ kb * (A.KVBS : Int) := by positivity
    omega
  have hlab : A.kvTokLabel kb j ≤ p := le_trans hmask.1 (le_of_eq hqtok)
  have hi : ((A.pStart s kb + j / A.pageSize) * A.pageSize + j % A.pageSize : ℕ) =
      A.pStart s kb * A.pageSize + j := by
    have hdm := Nat.div_add_mod j A.pageSize
    calc (A.pStart s kb + j / A.pageSize) * A.pageSize + j % A.pageSize
        = A.pStart s kb * A.pageSize +
            (A.pageSize * (j / A.pageSize) + j % A.pageSize) := by ring
      _ = A.pStart s kb * A.pageSize + j := by rw [hdm]
  have hile : ((A.pStart s kb * A.pageSize + j : ℕ) : Int) ≤ p := by
    have h1 : (A.pStart s kb : Int) * A.pageSize ≤ kb * A.KVBS * A.pageSize := by
      apply mul_le_mul_of_nonneg_right hpslb
      positivity
    unfold RpaInputs.kvTokLabel at hlab
    push_cast
    linarith
  have hform : A.pStart s kb * A.pageSize + j = A.pageSize * A.pStart s kb + j := by
    ring
  have hidiv : (A.pStart s kb * A.pageSize + j) / A.pageSize =
      A.pStart s kb + j / A.pageSize := by
    rw [hform, Nat.mul_add_div (by omega)]
  have himod : (A.pStart s kb * A.pageSize + j) % A.pageSize = j % A.pageSize := by
    rw [hform, Nat.mul_add_mod]
  have key := hagree (A.pStart s kb * A.pageSize + j) hile h2 d
  rw [hidiv, himod] at key
  show A.kvPages (clampIdx A.numPages (A.blockPage s kb (j / A.pageSize)))
      (j % A.pageSize) h2 d =
    kv2 (clampIdx A.numPages (A.blockPage s kb (j / A.pageSize))) (j % A.pageSize) h2 d
  unfold RpaInputs.blockPage
  rw [hclamp]
  exact key

theorem attnCap_eq_of_raw_eq (A B : RpaInputs) (hsc : B.softCap = A.softCap)
    (hth : B.tanhF = A.tanhF) (s : ℕ) (qb kb : Int) (r h g j : ℕ)
    (hraw : A.attnRaw s qb kb r h g j = B.attnRaw s qb kb r h g j) :
    A.attnCap s qb kb r h g j = B.attnCap s qb kb r h g j := by
  unfold RpaInputs.attnCap
  rw [hraw, hsc, hth]

/-- Under the agreement hypothesis, the masked attention scores of the row
labelled p coincide in both runs at every kv-block entry. -/
theorem rpa_attnMasked_agree (A : RpaInputs) (kv2 : ℕ → ℕ → ℕ → ℕ → ℚ)
    (s : ℕ) (p : Int) (qb kb : Int) (r : ℕ)
    (hps : 1 ≤ A.pageSize) (hsx : s < A.numSeqAxis)
    (hqtok : A.qTok s qb r = p) (h0kb : 0 ≤ kb)
    (hagree : ∀ i : ℕ, (i : Int) ≤ p → ∀ h2 d : ℕ,
      A.kvPages (clampIdx A.numPages (A.pageIndices s (i / A.pageSize)))
          (i % A.pageSize) h2 d =
        kv2 (clampIdx A.numPages (A.pageIndices s (i / A.pageSize)))
          (i % A.pageSize) h2 d) :
    ∀ h g j, A.attnMasked s qb kb r h g j =
      RpaInputs.attnMasked { A with kvPages := kv2 } s qb kb r h g j := by
  intro h g j
  unfold RpaInputs.attnMasked
  by_cases hm : A.maskAt s qb kb r j
  · rw [if_pos hm,
        if_pos (show RpaInputs.maskAt { A with kvPages := kv2 } s qb kb r j from hm)]
    apply attnCap_eq_of_raw_eq A { A with kvPages := kv2 } rfl rfl
    unfold RpaInputs.attnRaw
    apply sumFin_congr
    intro d hd
    have hk := rpa_kvread_agree A kv2 s p qb kb r hps hsx hqtok h0kb hagree j hm h d
    show A.qBlock s qb r h g d * A.kBlock s kb j h d =
      RpaInputs.qBlock { A with kvPages := kv2 } s qb r h g d *
        RpaInputs.kBlock { A with kvPages := kv2 } s kb j h d
    unfold RpaInputs.kBlock
    rw [hk]
    rfl
  · rw [if_neg hm,
        if_neg (show ¬ RpaInputs.maskAt { A with kvPages := kv2 } s qb kb r j from hm)]

/-- Under the agreement hypothesis, the values read by the output dot
product of the row labelled p coincide at every unmasked kv-block entry. -/
theorem rpa_pv_agree (A : RpaInputs) (kv2 : ℕ → ℕ → ℕ → ℕ → ℚ)
    (s : ℕ) (p : Int) (qb kb : Int) (r : ℕ)
    (hps : 1 ≤ A.pageSize) (hsx : s < A.numSeqAxis)
    (hqtok : A.qTok s qb r = p) (h0kb : 0 ≤ kb)
    (hagree : ∀ i : ℕ, (i : Int) ≤ p → ∀ h2 d : ℕ,
      A.kvPages (clampIdx A.numPages (A.pageIndices s (i / A.pageSize)))
          (i % A.pageSize) h2 d =
        kv2 (clampIdx A.numPages (A.pageIndices s (i / A.pageSize)))
          (i % A.pageSize) h2 d)
    (j : ℕ) (hm : A.maskAt s qb kb r j) :
    ∀ h d, A.vBlock s kb j h d =
      RpaInputs.vBlock { A with kvPages := kv2 } s kb j h d := by
  intro h d
  unfold RpaInputs.vBlock
  exact rpa_kvread_agree A kv2 s p qb kb r hps hsx hqtok h0kb hagree j hm
    (A.numKvHeads + h) d

/-- The carries of the kv loop at the query row labelled p agree between the
two runs: the running sum and max at every iteration count, and the output
accumulator as soon as one block has been processed (the first iteration
multiplies the incoming o_b by exp(-inf - new_max) = 0). -/
theorem rpa_kvloop_agree (A : RpaInputs) (kv2 : ℕ → ℕ → ℕ → ℕ → ℚ)
    (s : ℕ) (p : Int) (qb : Int) (r : ℕ)
    (hps : 1 ≤ A.pageSize) (hsx : s < A.numSeqAxis) (hqtok : A.qTok s qb r = p)
    (hnKv : 1 ≤ A.nKv) (h0kvb : 0 ≤ A.numKvBlocks s)
    (hagree : ∀ i : ℕ, (i : Int) ≤ p → ∀ h2 d : ℕ,
      A.kvPages (clampIdx A.numPages (A.pageIndices s (i / A.pageSize)))
          (i % A.pageSize) h2 d =
        kv2 (clampIdx A.numPages (A.pageIndices s (i / A.pageSize)))
          (i % A.pageSize) h2 d)
    (oA oB : ℕ → ℕ → ℕ → ℕ → ℚ) :
    (∀ h g, (A.kvLoop s qb oA).sumB r h g =
      (RpaInputs.kvLoop { A with kvPages := kv2 } s qb oB).sumB r h g) ∧
    (∀ h g, (A.kvLoop s qb oA).maxB r h g =
      (RpaInputs.kvLoop { A with kvPages := kv2 } s qb oB).maxB r h g) ∧
    (1 ≤ A.numKvBlocks s → ∀ h g d, (A.kvLoop s qb oA).oB r h g d =
      (RpaInputs.kvLoop { A with kvPages := kv2 } s qb oB).oB r h g d) := by
  have hBmask : RpaInputs.maskAt { A with kvPages := kv2 } = A.maskAt := rfl
  have hBexp : RpaInputs.expF { A with kvPages := kv2 } = A.expF := rfl
  have hBnKv : RpaInputs.nKv { A with kvPages := kv2 } = A.nKv := rfl
  have main := foriLoop_rel_idx 0 (A.numKvBlocks s)
    (fun kb c => A.kvStep s qb kb c)
    (fun kb c => RpaInputs.kvStep { A with kvPages := kv2 } s qb kb c)
    (fun kb cA cB =>
      (∀ h g, cA.sumB r h g = cB.sumB r h g) ∧
      (∀ h g, cA.maxB r h g = cB.maxB r h g) ∧
      (kb ≤ 0 → ∀ h g, cA.maxB r h g = XVal.ninf) ∧
      (1 ≤ kb → ∀ h g d, cA.oB r h g d = cB.oB r h g d))
    (A.kvLoopInit s qb oA) (RpaInputs.kvLoopInit { A with kvPages := kv2 } s qb oB)
    h0kvb
    ⟨fun _ _ => rfl, fun _ _ => rfl, fun _ _ _ => rfl, fun hc => absurd hc (by omega)⟩
    ?step
  · exact ⟨main.1, main.2.1, fun h1 => main.2.2.2 h1⟩
  case step =>
    intro kb cA cB h0kb hkb hR
    obtain ⟨hsum, hmax, hninf, hoB⟩ := hR
    have hattn := rpa_attnMasked_agree A kv2 s p qb kb r hps hsx hqtok h0kb hagree
    have hpv := rpa_pv_agree A kv2 s p qb kb r hps hsx hqtok h0kb hagree
    unfold RpaInputs.kvStep
    dsimp only
    have hsumv : ∀ (mx : XVal) (h g d : ℕ),
        sumFin A.nKv (fun j =>
          (if A.maskAt s qb kb r j then
            A.expF (A.attnMasked s qb kb r h g j -
              (XVal.maxv mx
                (XVal.fin (maxFin A.nKv
                  (fun j2 => A.attnMasked s qb kb r h g j2)))).toFin)
          else 0) * A.vBlock s kb j h d) =
        sumFin A.nKv (fun j =>
          (if A.maskAt s qb kb r j then
            A.expF (A.attnMasked s qb kb r h g j -
              (XVal.maxv mx
                (XVal.fin (maxFin A.nKv
                  (fun j2 => A.attnMasked s qb kb r h g j2)))).toFin)
          else 0) * RpaInputs.vBlock { A with kvPages := kv2 } s kb j h d) := by
      intro mx h g d
      apply sumFin_congr
      intro j hj
      by_cases hm : A.maskAt s qb kb r j
      · rw [hpv j hm h d]
      · rw [if_neg hm, zero_mul, zero_mul]
    refine ⟨?_, ?_, fun hc => absurd hc (by omega), ?_⟩
    · intro h g
      simp only [hBmask, hBexp, hBnKv, ← hattn, hmax h g, hsum h g]
    · intro h g
      simp only [hBmask, hBexp, hBnKv, ← hattn, hmax h g]
    · intro _ h g d
      simp only [hBmask, hBexp, hBnKv, ← hattn, hmax h g]
      rcases le_or_lt kb 0 with hkb0 | hkb1
      · have hB0 : cB.maxB r h g = XVal.ninf := by
          rw [← hmax h g]
          exact hninf hkb0 h g
        simp only [hB0, XVal.subFin, XVal.expv, zero_mul, zero_add]
        exact hsumv XVal.ninf h g d
      · rw [hoB (by omega) h g d, hsumv (cB.maxB r h g) h g d]

/-- A scatter of update_kv_cache leaves every (page, slot) coordinate not
named by a valid destination unchanged. -/
theorem scatterTokens_frame (numPages pageSize : ℕ) (dests : ℕ → Int)
    (m headLo headCount : ℕ) (vals : ℕ → ℕ → ℕ → ℚ)
    (cache : ℕ → ℕ → ℕ → ℕ → ℚ) (pg sl : ℕ)
    (hnot : ∀ i, i < m →
      ¬ (0 ≤ dests i ∧ dests i / (pageSize : Int) = (pg : Int) ∧
         dests i % (pageSize : Int) = (sl : Int))) :
    ∀ h d, scatterTokens numPages pageSize dests m headLo headCount vals cache pg sl h d =
      cache pg sl h d := by
  unfold scatterTokens
  have := foriLoop_inv 0 (m : Int)
    (fun i c =>
      let dest := dests i.toNat
      let tp : Int := if 0 ≤ dest then dest / (pageSize : Int) else (numPages : Int)
      let ts : Int := if 0 ≤ dest then dest % (pageSize : Int) else (pageSize : Int)
      if 0 ≤ tp ∧ tp < (numPages : Int) ∧ 0 ≤ ts ∧ ts < (pageSize : Int) then
        fun pg2 sl2 h d =>
          if pg2 = tp.toNat ∧ sl2 = ts.toNat ∧ headLo ≤ h ∧ h < headLo + headCount then
            vals i.toNat (h - headLo) d
          else c pg2 sl2 h d
      else c)
    (fun c => ∀ h d, c pg sl h d = cache pg sl h d)
    cache (fun _ _ => rfl) ?step
  · exact this
  case step =>
    intro i c h0i him hc
    dsimp only
    by_cases hvalid : 0 ≤ dests i.toNat
    · rw [if_pos hvalid, if_pos hvalid]
      by_cases hrange : 0 ≤ dests i.toNat / (pageSize : Int) ∧
          dests i.toNat / (pageSize : Int) < (numPages : Int) ∧
          0 ≤ dests i.toNat % (pageSize : Int) ∧
          dests i.toNat % (pageSize : Int) < (pageSize : Int)
      · rw [if_pos hrange]
        intro h d
        have hmiss : ¬ (pg = (dests i.toNat / (pageSize : Int)).toNat ∧
            sl = (dests i.toNat % (pageSize : Int)).toNat ∧
            headLo ≤ h ∧ h < headLo + headCount) := by
          rintro ⟨hpg, hsl, -, -⟩
          exact hnot i.toNat (by omega) ⟨hvalid, by omega, by omega⟩
        rw [if_neg hmiss]
        exact hc h d
      · rw [if_neg hrange]
        exact hc
    · rw [if_neg hvalid, if_neg hvalid]
      have hrange : ¬ (0 ≤ (numPages : Int) ∧ (numPages : Int) < (numPages : Int) ∧
          0 ≤ (pageSize : Int) ∧ (pageSize : Int) < (pageSize : Int)) := by omega
      rw [if_neg hrange]
      exact hc

/-- C9: for all new keys and values, update_kv_cache returns a state whose
batch_info is exactly the input batch_info, and the cache buffer is
unchanged at every (page, slot) coordinate that is not the (dest / page_size,
dest % page_size) pair of some valid (non-INVALID) token destination; in
particular a token with INVALID destination is never written into any valid
cache slot (its write is redirected out of range and dropped). -/
theorem c9_update_kv_cache_frame (st : KvPageState) (kvHeads : ℕ)
    (newK newV : ℕ → ℕ → ℕ → ℚ) :
    (st.updateKvCache kvHeads newK newV).batchInfo = st.batchInfo ∧
    (∀ (pg sl h d : ℕ),
      (∀ i, i < st.batchInfo.posAxisSize →
        ¬ (0 ≤ st.batchInfo.newTokenDests i ∧
           st.batchInfo.newTokenDests i / (st.cache.pageSize : Int) = (pg : Int) ∧
           st.batchInfo.newTokenDests i % (st.cache.pageSize : Int) = (sl : Int))) →
      (st.updateKvCache kvHeads newK newV).cache.kvPages pg sl h d =
        st.cache.kvPages pg sl h d) := by
  refine ⟨rfl, ?_⟩
  intro pg sl h d hnot
  show scatterTokens st.cache.numPages st.cache.pageSize st.batchInfo.newTokenDests
      st.batchInfo.posAxisSize kvHeads kvHeads newV
      (scatterTokens st.cache.numPages st.cache.pageSize st.batchInfo.newTokenDests
        st.batchInfo.posAxisSize 0 kvHeads newK st.cache.kvPages) pg sl h d =
    st.cache.kvPages pg sl h d
  rw [scatterTokens_frame _ _ _ _ _ _ _ _ _ _ hnot]
  exact scatterTokens_frame _ _ _ _ _ _ _ _ _ _ hnot h d

/-- Witness for C9: on a 1-page cache with a single INVALID-destination
token, updating the cache preserves the batch info and leaves the only
valid slot untouched. -/
theorem c9_update_kv_cache_frame_witness :
    (∀ i, i < witnessState.batchInfo.posAxisSize →
      ¬ (0 ≤ witnessState.batchInfo.newTokenDests i ∧
         witnessState.batchInfo.newTokenDests i / (witnessState.cache.pageSize : Int) = (0 : Int) ∧
         witnessState.batchInfo.newTokenDests i % (witnessState.cache.pageSize : Int) = (0 : Int))) ∧
    (witnessState.updateKvCache 1 (fun _ _ _ => 1) (fun _ _ _ => 2)).batchInfo =
      witnessState.batchInfo ∧
    (witnessState.updateKvCache 1 (fun _ _ _ => 1) (fun _ _ _ => 2)).cache.kvPages 0 0 0 0 =
      witnessState.cache.kvPages 0 0 0 0 :=
  ⟨by decide,
   (c9_update_kv_cache_frame witnessState 1 (fun _ _ _ => 1) (fun _ _ _ => 2)).1,
   (c9_update_kv_cache_frame witnessState 1 (fun _ _ _ => 1) (fun _ _ _ => 2)).2
     0 0 0 0 (by decide)⟩

/-- C10 counterexample: with bfloat16 queries (and keys), the kernel's
output accumulator is stored back into the bfloat16 output array on every
query-block store (o = zeros_like(q), and .at[...].set casts to o's dtype),
so the output is not accumulated in at least 32-bit precision for every
input precision, contrary to the claim. -/
theorem c10_output_accum_dtype_counterexample :
    (rpaAccumDtypes Dtype.bf16 Dtype.bf16).outStored.width < 32 := by
  decide

/-- C10 (amended): for every input precision, the kernel's running max and
running normalization sum are accumulated in float32 (hax.full(-inf) and
hax.zeros default to float32, and promotion keeps them there), and within a
key/value block the output accumulator body is computed in float32 as well;
but the stored output accumulator is kept in the query dtype — there is no
accumulate-in-32-bit-then-cast-at-the-end for the output when the queries
are 16-bit. -/
theorem c10_accumulator_dtypes (qDtype kvDtype : Dtype) :
    (rpaAccumDtypes qDtype kvDtype).runningMax = Dtype.f32 ∧
    (rpaAccumDtypes qDtype kvDtype).runningSum = Dtype.f32 ∧
    (rpaAccumDtypes qDtype kvDtype).outAccumBody = Dtype.f32 ∧
    (rpaAccumDtypes qDtype kvDtype).outStored = qDtype := by
  cases qDtype <;> cases kvDtype <;> exact ⟨rfl, rfl, rfl, rfl⟩

/-- C8: the concrete spec scenario.  With page_size = 4, max_pages = 2,
max_seqs = 1: after init and assigning one sequence, allocating 5 new tokens
yields exactly pages 0 and 1 in the sequence's row (page 0 chosen first),
owners both set to sequence 0, length 5, and token destinations
0, 1, 2, 3, 4; freeing the sequence returns both pages to the free pool and
resets the row and length to the INVALID sentinel. -/
theorem c8_concrete_scenario :
    (scenarioAlloc.1.pageIndices 0 0 = 0 ∧ scenarioAlloc.1.pageIndices 0 1 = 1) ∧
    (scenarioAlloc.1.pageOwners 0 = 0 ∧ scenarioAlloc.1.pageOwners 1 = 0) ∧
    scenarioAlloc.1.seqLens 0 = 5 ∧
    (∀ i, i < 5 → scenarioAlloc.2.newTokenDests i = i) ∧
    (scenarioAlloc.1.freePages 0).map
        (fun t => (t.pageOwners 0, t.pageOwners 1, t.pageIndices 0 0, t.pageIndices 0 1, t.seqLens 0))
      = some (-1, -1, -1, -1, -1) := by
  decide

/-- Under the agreement hypothesis, the normalized output block of (s, qb)
at the query row labelled p is identical in both runs, for arbitrary (and
possibly different) incoming output arrays, provided the kv loop runs at
least once. -/
theorem rpa_blockOut_agree (A : RpaInputs) (kv2 : ℕ → ℕ → ℕ → ℕ → ℚ)
    (s : ℕ) (p : Int) (qb : Int) (r : ℕ)
    (hps : 1 ≤ A.pageSize) (hsx : s < A.numSeqAxis) (hqtok : A.qTok s qb r = p)
    (hnKv : 1 ≤ A.nKv) (h1kvb : 1 ≤ A.numKvBlocks s)
    (hagree : ∀ i : ℕ, (i : Int) ≤ p → ∀ h2 d : ℕ,
      A.kvPages (clampIdx A.numPages (A.pageIndices s (i / A.pageSize)))
          (i % A.pageSize) h2 d =
        kv2 (clampIdx A.numPages (A.pageIndices s (i / A.pageSize)))
          (i % A.pageSize) h2 d)
    (oA oB : ℕ → ℕ → ℕ → ℕ → ℚ) :
    ∀ h g d, A.blockOut s qb oA r h g d =
      RpaInputs.blockOut { A with kvPages := kv2 } s qb oB r h g d := by
  intro h g d
  obtain ⟨hsum, hmax, hoB⟩ := rpa_kvloop_agree A kv2 s p qb r hps hsx hqtok hnKv
    (by omega) hagree oA oB
  have hBqt : RpaInputs.qTok { A with kvPages := kv2 } = A.qTok := rfl
  have hBqe : RpaInputs.qPosEnd { A with kvPages := kv2 } = A.qPosEnd := rfl
  unfold RpaInputs.blockOut
  dsimp only
  simp only [hBqt, hBqe]
  rw [hsum h g, hoB h1kvb h g d]

/-- A sequence whose query window starts after position t never writes
position t: _compute_attention_for_seq leaves o[t] unchanged. -/
theorem rpa_seqStep_preserves (A : RpaInputs) (s2 t : ℕ)
    (ht : (t : Int) < A.cuQLens s2) (o : ℕ → ℕ → ℕ → ℕ → ℚ) :
    ∀ h g d, A.seqStep s2 o t h g d = o t h g d := by
  have main := foriLoop_inv 0 (A.numQBlocks s2) (fun qb o2 => A.blockWrite s2 qb o2)
    (fun o2 => ∀ h g d, o2 t h g d = o t h g d) o
    (fun _ _ _ => rfl)
    (fun qb o2 h0qb _ ih => by
      intro h g d
      unfold RpaInputs.blockWrite
      dsimp only
      rw [if_neg]
      · exact ih h g d
      · rintro ⟨hc1, -, -⟩
        unfold RpaInputs.qStart at hc1
        have hqnn : 0 ≤ qb * (A.QBS : Int) := by positivity
        omega)
  exact main

/-- The pass of _compute_attention_for_seq over sequence s writes the same
value at position t in both runs, for arbitrary incoming output arrays:
position t is written exactly once, by the query block containing it, and
that block's output is independent of the incoming array and agrees between
the runs. -/
theorem rpa_seqStep_agree (A : RpaInputs) (kv2 : ℕ → ℕ → ℕ → ℕ → ℚ)
    (s t : ℕ) (p : Int)
    (hps : 1 ≤ A.pageSize) (hpps : 1 ≤ A.pagesPerSeq) (hsx : s < A.numSeqAxis)
    (h0cu : 0 ≤ A.cuQLens s) (hcuhi : A.cuQLens (s + 1) ≤ (A.nTok : Int))
    (ht1 : A.cuQLens s ≤ (t : Int)) (ht2 : (t : Int) < A.cuQLens (s + 1))
    (hp : p = A.kvLenOf s - A.qLen s + ((t : Int) - A.cuQLens s))
    (hp0 : 0 ≤ p)
    (hagree : ∀ i : ℕ, (i : Int) ≤ p → ∀ h2 d : ℕ,
      A.kvPages (clampIdx A.numPages (A.pageIndices s (i / A.pageSize)))
          (i % A.pageSize) h2 d =
        kv2 (clampIdx A.numPages (A.pageIndices s (i / A.pageSize)))
          (i % A.pageSize) h2 d)
    (oA oB : ℕ → ℕ → ℕ → ℕ → ℚ) :
    ∀ h g d, A.seqStep s oA t h g d =
      RpaInputs.seqStep { A with kvPages := kv2 } s oB t h g d := by
  obtain ⟨c, hc, hcmem⟩ : ∃ c : ℕ, A.QBS = c ∧ (c = 1 ∨ c = 2 ∨ c = 3 ∨ c = 4) :=
    ⟨A.QBS, rfl, by
      have hnt : 1 ≤ A.nTok := by omega
      unfold RpaInputs.QBS
      omega⟩
  obtain ⟨qbs, hqbs⟩ : ∃ qbs : Int, qbs = ((t : Int) - A.cuQLens s) / (A.QBS : Int) :=
    ⟨_, rfl⟩
  have hxL : (t : Int) - A.cuQLens s < A.qLen s := by
    unfold RpaInputs.qLen
    omega
  have hfacts : 0 ≤ qbs ∧ qbs * (A.QBS : Int) ≤ (t : Int) - A.cuQLens s ∧
      (t : Int) - A.cuQLens s < qbs * (A.QBS : Int) + (A.QBS : Int) ∧
      qbs < A.numQBlocks s := by
    subst hqbs
    unfold RpaInputs.numQBlocks
    unfold RpaInputs.qLen at hxL ⊢
    rw [hc]
    rcases hcmem with rfl | rfl | rfl | rfl <;> omega
  obtain ⟨h1, h2, h3, h4⟩ := hfacts
  have hnKv : 1 ≤ A.nKv := by
    unfold RpaInputs.nKv RpaInputs.KVBS
    have : 1 ≤ min 32 A.pagesPerSeq := by omega
    exact Nat.one_le_iff_ne_zero.mpr (Nat.mul_ne_zero (by omega) (by omega))
  have hpkv : p < A.kvLenOf s := by
    rw [hp]
    omega
  have h1kvb : 1 ≤ A.numKvBlocks s := by
    have hppb : 1 ≤ A.kvPosPerBlock := by
      unfold RpaInputs.kvPosPerBlock RpaInputs.KVBS
      have : 1 ≤ min 32 A.pagesPerSeq := by omega
      exact Nat.one_le_iff_ne_zero.mpr (Nat.mul_ne_zero (by omega) (by omega))
    have hnum : (A.kvPosPerBlock : Int) ≤ A.kvLenOf s + A.kvPosPerBlock - 1 := by
      omega
    unfold RpaInputs.numKvBlocks
    calc (1 : Int) = (A.kvPosPerBlock : Int) / (A.kvPosPerBlock : Int) :=
          (Int.ediv_self (by omega)).symm
      _ ≤ (A.kvLenOf s + A.kvPosPerBlock - 1) / (A.kvPosPerBlock : Int) :=
          Int.ediv_le_ediv (by omega) hnum
  have hBqs : RpaInputs.qStart { A with kvPages := kv2 } = A.qStart := rfl
  have hBQBS : RpaInputs.QBS { A with kvPages := kv2 } = A.QBS := rfl
  have hBnPad : RpaInputs.nPad { A with kvPages := kv2 } = A.nPad := rfl
  have hcond : A.qStart s qbs ≤ (t : Int) ∧
      (t : Int) < A.qStart s qbs + A.QBS ∧ t < A.nPad := by
    refine ⟨?_, ?_, ?_⟩
    · unfold RpaInputs.qStart
      linarith [h2]
    · unfold RpaInputs.qStart
      linarith [h3]
    · have hpad : A.nTok ≤ A.nPad := Nat.le_add_right _ _
      omega
  have main := foriLoop_rel_idx 0 (A.numQBlocks s)
    (fun qb o2 => A.blockWrite s qb o2)
    (fun qb o2 => RpaInputs.blockWrite { A with kvPages := kv2 } s qb o2)
    (fun qb uA uB => qbs < qb → ∀ h g d, uA t h g d = uB t h g d)
    oA oB (by omega)
    (fun hcontra => absurd hcontra (by omega))
    ?step
  · intro h g d
    exact main (by omega) h g d
  case step =>
    intro qb uA uB h0qb hqbn hR
    rcases lt_trichotomy qb qbs with hlt | rfl | hgt
    · intro hcontra
      exact absurd hcontra (by omega)
    · intro _ h g d
      unfold RpaInputs.blockWrite
      dsimp only
      simp only [hBqs, hBQBS, hBnPad]
      rw [if_pos hcond, if_pos hcond]
      have hqtok : A.qTok s qb (((t : Int) - A.qStart s qb).toNat) = p := by
        have hr : ((((t : Int) - A.qStart s qb).toNat : ℕ) : Int) =
            (t : Int) - A.qStart s qb := by
          omega
        unfold RpaInputs.qTok RpaInputs.qPosStart
        rw [hr, hp]
        ring
      exact rpa_blockOut_agree A kv2 s p qb (((t : Int) - A.qStart s qb).toNat)
        hps hsx hqtok hnKv h1kvb hagree uA uB h g d
    · intro _ h g d
      have hnot : ¬ (A.qStart s qb ≤ (t : Int) ∧
          (t : Int) < A.qStart s qb + A.QBS ∧ t < A.nPad) := by
        rintro ⟨hA, -, -⟩
        unfold RpaInputs.qStart at hA
        have hstepm : (qbs + 1) * (A.QBS : Int) ≤ qb * (A.QBS : Int) :=
          mul_le_mul_of_nonneg_right (by omega) (by positivity)
        have hexp : (qbs + 1) * (A.QBS : Int) =
            qbs * (A.QBS : Int) + (A.QBS : Int) := by ring
        linarith [hA, h3, hstepm, hexp.symm.le]
      unfold RpaInputs.blockWrite
      dsimp only
      simp only [hBqs, hBQBS, hBnPad]
      rw [if_neg hnot, if_neg hnot]
      exact hR hgt h g d

/-- C2: causal non-interference of default_ragged_paged_attention.  For a
query token t of sequence s whose logical position is p (p = kv_len - q_len
+ (t - cu_q_lens[s]), with 0 ≤ p; p < kv_len holds automatically), if two
caches agree on every cache cell backing a position i ≤ p of sequence s
(through that sequence's page table row), the kernel's output for token t is
identical under the two caches: perturbing any key/value at a position
greater than p, beyond the committed length, or belonging to a different
sequence's pages cannot change token t's output.  Side conditions: the page
size and page list are nonempty, s is in range, and cu_q_lens is a
monotone cumulative-length vector starting at 0 and ending at the token
count, with cu_q_lens[s] ≤ t < cu_q_lens[s+1]. -/
theorem c2_causal_noninterference (A : RpaInputs) (kv2 : ℕ → ℕ → ℕ → ℕ → ℚ)
    (s t : ℕ) (p : Int)
    (hps : 1 ≤ A.pageSize) (hpps : 1 ≤ A.pagesPerSeq)
    (hs : s < A.numSeqs) (hsx : s < A.numSeqAxis)
    (hcu0 : A.cuQLens 0 = 0)
    (hcu : ∀ j, j < A.numSeqs → A.cuQLens j ≤ A.cuQLens (j + 1))
    (hcuN : A.cuQLens A.numSeqs = (A.nTok : Int))
    (ht1 : A.cuQLens s ≤ (t : Int)) (ht2 : (t : Int) < A.cuQLens (s + 1))
    (hp : p = A.kvLenOf s - A.qLen s + ((t : Int) - A.cuQLens s))
    (hp0 : 0 ≤ p)
    (hagree : ∀ i : ℕ, (i : Int) ≤ p → ∀ h2 d : ℕ,
      A.kvPages (clampIdx A.numPages (A.pageIndices s (i / A.pageSize)))
          (i % A.pageSize) h2 d =
        kv2 (clampIdx A.numPages (A.pageIndices s (i / A.pageSize)))
          (i % A.pageSize) h2 d) :
    ∀ h g d, defaultRaggedPagedAttention A t h g d =
      defaultRaggedPagedAttention { A with kvPages := kv2 } t h g d := by
  have chain := cuMonoChain A.cuQLens A.numSeqs hcu
  have h0cu : 0 ≤ A.cuQLens s := by
    have := chain 0 s (by omega) (by omega)
    omega
  have hcuhi : A.cuQLens (s + 1) ≤ (A.nTok : Int) := by
    have := chain (s + 1) A.numSeqs (by omega) (le_refl _)
    omega
  have htn : t < A.nTok := by omega
  have main := foriLoop_rel_idx 0 ((A.numSeqs : ℕ) : Int)
    (fun sI o => A.seqStep sI.toNat o)
    (fun sI o => RpaInputs.seqStep { A with kvPages := kv2 } sI.toNat o)
    (fun i uA uB => (s : Int) < i → ∀ h g d, uA t h g d = uB t h g d)
    (fun _ _ _ _ => 0) (fun _ _ _ _ => 0) (by omega)
    (fun hcontra => absurd hcontra (by omega))
    ?step
  · intro h g d
    unfold defaultRaggedPagedAttention
    rw [if_pos htn, if_pos htn]
    exact main (by omega) h g d
  case step =>
    intro i uA uB h0i hiN hR
    by_cases hcase : (s : Int) < i
    · intro _ h g d
      have hts : (t : Int) < A.cuQLens i.toNat := by
        have := chain (s + 1) i.toNat (by omega) (by omega)
        omega
      dsimp only
      rw [rpa_seqStep_preserves A i.toNat t hts uA h g d,
          rpa_seqStep_preserves { A with kvPages := kv2 } i.toNat t hts uB h g d]
      exact hR hcase h g d
    · intro hlt h g d
      have hieq : i = (s : Int) := by omega
      subst hieq
      exact rpa_seqStep_agree A kv2 s t p hps hpps hsx h0cu hcuhi ht1 ht2 hp hp0
        hagree uA uB h g d

/-- Witness for C2 at a concrete input: one sequence of committed length 2
with two query tokens; perturbing the cache page that backs position 1 does
not change the output for the query token at position 0. -/
theorem c2_causal_noninterference_witness :
    1 ≤ c2Awit.pageSize ∧
    defaultRaggedPagedAttention c2Awit 0 0 0 0 =
      defaultRaggedPagedAttention { c2Awit with kvPages := c2Kv2 } 0 0 0 0 :=
  ⟨by decide,
   c2_causal_noninterference c2Awit c2Kv2 0 0 0
     (by decide) (by decide) (by decide) (by decide) (by decide)
     (by
       intro j hj
       have hn : c2Awit.numSeqs = 1 := rfl
       have hj0 : j = 0 := by omega
       subst hj0
       decide)
     (by decide) (by decide) (by decide) (by decide) (by decide)
     (by
       intro i hi h2 d
       have hi0 : i = 0 := by omega
       subst hi0
       rfl)
     0 0 0⟩

end Levanter
